import Mathlib

/-!
libfins: 32-bit memory area read (FINS function 01 01).

A shallow embedding of `src/fins_01_01_int32.c`.  Machine integers are natural
numbers with explicit wrap-around; the collaborators declared in `fins.h`
(address decoder, area lookup, command initialisation, transport) are
parameters of the model, and every call made to them is recorded in a trace.
The `do ... while` loop is observed for a bounded number of passes, so that
statements about passes, requests and the destination also cover runs that
fail or do not end.
-/

namespace Fins

/-- Modulus of `size_t` arithmetic: the model fixes a 64-bit `size_t`. -/
def SIZE_MOD : Nat := 2 ^ 64

/-- Modulus of `uint32_t` arithmetic. -/
def UINT32_MOD : Nat := 2 ^ 32

/-- Modelled from the spec: the result codes `FINS_RETVAL_...` of `fins.h`, which is
not part of the sources at hand.  The codes named in `fins_01_01_int32.c` are
distinct constructors; `other` stands for every further code the transport may
hand back. -/
inductive Retval
  | FINS_RETVAL_SUCCESS
  | FINS_RETVAL_NOT_INITIALIZED
  | FINS_RETVAL_NO_READ_ADDRESS
  | FINS_RETVAL_NO_DATA_BLOCK
  | FINS_RETVAL_NOT_CONNECTED
  | FINS_RETVAL_INVALID_READ_ADDRESS
  | FINS_RETVAL_INVALID_READ_AREA
  | FINS_RETVAL_BODY_TOO_SHORT
  | other (code : Int)
  deriving DecidableEq, Repr

open Retval

/-- Modelled from the spec: `struct fins_address_tp` of `fins.h`, the decoded address
(the spec's WireAddress: an area designation and a word offset).  The read
routine only looks at `main_address`; the area lookup receives the whole
record. -/
structure fins_address_tp where
  area : Nat
  main_address : Nat
  deriving DecidableEq, Repr

/-- Modelled from the spec: `struct fins_area_tp` of `fins.h`, restricted to the three
fields read by the routine. -/
structure fins_area_tp where
  area : Nat
  low_id : Nat
  low_addr : Nat
  deriving DecidableEq, Repr

/-- Modelled from the spec: `struct fins_sys_tp` of `fins.h`, restricted to the socket
descriptor, the only field the routine inspects. -/
structure fins_sys_tp where
  sockfd : Int
  deriving DecidableEq, Repr

/-- Calls made to the collaborators, in the order in which they happen. -/
inductive Event
  | decode_address (start : String)
  | search_area (sys : fins_sys_tp) (address : fins_address_tp) (bits : Nat)
      (access : Nat) (bit_access : Bool)
  | init_command (mrc : Nat) (src : Nat)
  | communicate (body : List Nat) (bodylen : Nat) (wait_response : Bool)
  deriving DecidableEq, Repr

/-- Modelled from the spec: the constants and collaborator functions of `fins.h` used by
`fins_01_01_int32.c`.  `XX_finslib_decode_address` yields `none` where the C
function reports an error, `XX_finslib_search_area` yields `none` for a `NULL`
result, and `XX_finslib_communicate sys k body bodylen wait` is the outcome of
the `k`-th transport call of one read (counted from 0): the result code and
the reply body, whose length is the updated `bodylen`. -/
structure Env where
  FINS_MAX_READ_WORDS_SYSWAY : Nat
  INVALID_SOCKET : Int
  FI_RD : Nat
  XX_finslib_decode_address : String → Option fins_address_tp
  XX_finslib_search_area :
    fins_sys_tp → fins_address_tp → Nat → Nat → Bool → Option fins_area_tp
  XX_finslib_communicate :
    fins_sys_tp → Nat → List Nat → Nat → Bool → Retval × List Nat

/-- Observation record of one pass of the `do ... while` loop: the loop variables
when the request is built, and what the transport returned. -/
structure Iteration where
  chunk_start : Nat
  chunk_length : Nat
  offset : Nat
  todo : Nat
  retval : Retval
  reply : List Nat
  deriving DecidableEq, Repr

/-- Result of the chunk loop, observed for a bounded number of passes: `retval` is
the code returned, or `none` while the loop is still running when the bound
is reached; `data`, `trace` and `iterations` hold what has happened so far. -/
structure LoopResult where
  retval : Option Retval
  data : Nat → Nat
  trace : List Event
  iterations : List Iteration

/-- Result of one call: the code returned (`none` while the loop is still running
when the bound on the passes is reached), the destination memory (`none` for
a `NULL` pointer), the collaborator calls and the loop passes. -/
structure Outcome where
  retval : Option Retval
  data : Option (Nat → Nat)
  trace : List Event
  iterations : List Iteration

/-- Assignment `data[i] = v` on the destination memory, addressed by element index. -/
def store (data : Nat → Nat) (i v : Nat) : Nat → Nat :=
  fun j => if j = i then v else data j

/-- Lines 93-96: the chunk length in 16-bit units for `todo` remaining values. -/
def next_chunk_length (env : Env) (todo : Nat) : Nat :=
  let chunk_length := env.FINS_MAX_READ_WORDS_SYSWAY % SIZE_MOD
  let chunk_length :=
    if chunk_length > (todo * 2) % SIZE_MOD then (todo * 2) % SIZE_MOD else chunk_length
  chunk_length &&& 0xFFFFFFFE

/-- Lines 100-107: the six body bytes of one request. -/
def request_body (area : fins_area_tp) (chunk_start chunk_length : Nat) : List Nat :=
  [ area.area % 256,
    (chunk_start >>> 8) &&& 0xff,
    chunk_start &&& 0xff,
    0x00,
    (chunk_length >>> 8) &&& 0xff,
    chunk_length &&& 0xff ]

/-- Lines 117-123: the value left in `data[offset+a]` by the seven assignments,
each of them in `uint32_t` arithmetic. -/
def decode_value (body : List Nat) (bodylen : Nat) : Nat :=
  let d := body.getD ((bodylen + 2) % SIZE_MOD) 0 % UINT32_MOD
  let d := (d <<< 8) % UINT32_MOD
  let d := (d + body.getD ((bodylen + 3) % SIZE_MOD) 0) % UINT32_MOD
  let d := (d <<< 8) % UINT32_MOD
  let d := (d + body.getD ((bodylen + 0) % SIZE_MOD) 0) % UINT32_MOD
  let d := (d <<< 8) % UINT32_MOD
  let d := (d + body.getD ((bodylen + 1) % SIZE_MOD) 0) % UINT32_MOD
  d

/-- Lines 115-126: the `for` loop; the first argument is the number of passes
left, `chunk_length/2 - a`. -/
def decode_loop (body : List Nat) (offset : Nat) :
    Nat → Nat → Nat → (Nat → Nat) → (Nat → Nat)
  | 0, _, _, data => data
  | n + 1, a, bodylen, data =>
    decode_loop body offset n (a + 1) ((bodylen + 4) % SIZE_MOD)
      (store data ((offset + a) % SIZE_MOD) (decode_value body bodylen))

/-- Lines 92-134: the `do ... while` loop, observed for at most `fuel` passes.
`calls` counts the transport calls made so far. -/
def read_loop (env : Env) (sys : fins_sys_tp) (area : fins_area_tp) :
    Nat → Nat → Nat → Nat → Nat → (Nat → Nat) → LoopResult
  | 0, _, _, _, _, data => ⟨none, data, [], []⟩
  | fuel + 1, calls, chunk_start, offset, todo, data =>
    let chunk_length := next_chunk_length env todo
    let body := request_body area chunk_start chunk_length
    let answer := env.XX_finslib_communicate sys calls body 6 true
    let events := [Event.init_command 0x01 0x01, Event.communicate body 6 true]
    let pass : Iteration :=
      ⟨chunk_start, chunk_length, offset, todo, answer.1, answer.2⟩
    if answer.1 ≠ FINS_RETVAL_SUCCESS then
      ⟨some answer.1, data, events, [pass]⟩
    else if answer.2.length ≠ (2 + 2 * chunk_length) % SIZE_MOD then
      ⟨some FINS_RETVAL_BODY_TOO_SHORT, data, events, [pass]⟩
    else
      let data1 := decode_loop answer.2 offset (chunk_length / 2) 0 2 data
      let todo1 := (todo + (SIZE_MOD - (chunk_length / 2) % SIZE_MOD)) % SIZE_MOD
      let offset1 := (offset + chunk_length / 2) % SIZE_MOD
      let chunk_start1 := (chunk_start + chunk_length) % SIZE_MOD
      if todo1 > 0 then
        let r := read_loop env sys area fuel (calls + 1) chunk_start1 offset1 todo1 data1
        ⟨r.retval, r.data, events ++ r.trace, pass :: r.iterations⟩
      else
        ⟨some FINS_RETVAL_SUCCESS, data1, events, [pass]⟩

/-- Lines 86-90: the start address on the wire, in `size_t` arithmetic. -/
def initial_chunk_start (address : fins_address_tp) (area : fins_area_tp) : Nat :=
  let chunk_start := address.main_address % SIZE_MOD
  let chunk_start := (chunk_start + (area.low_addr >>> 8) % SIZE_MOD) % SIZE_MOD
  (chunk_start + (SIZE_MOD - area.low_id % SIZE_MOD)) % SIZE_MOD

/-- Lines 63-136: `finslib_memory_area_read_uint32`, with the loop observed for at
most `fuel` passes.  A `NULL` pointer argument is `none`; the destination is
the memory behind `data`, indexed by element. -/
def finslib_memory_area_read_uint32 (env : Env) (fuel : Nat) (sys : Option fins_sys_tp)
    (start : Option String) (data : Option (Nat → Nat)) (num_uint32 : Nat) : Outcome :=
  if num_uint32 = 0 then ⟨some FINS_RETVAL_SUCCESS, data, [], []⟩
  else match sys with
  | none => ⟨some FINS_RETVAL_NOT_INITIALIZED, data, [], []⟩
  | some s =>
  match start with
  | none => ⟨some FINS_RETVAL_NO_READ_ADDRESS, data, [], []⟩
  | some text =>
  match data with
  | none => ⟨some FINS_RETVAL_NO_DATA_BLOCK, data, [], []⟩
  | some d =>
  if s.sockfd = env.INVALID_SOCKET then ⟨some FINS_RETVAL_NOT_CONNECTED, data, [], []⟩
  else match env.XX_finslib_decode_address text with
  | none =>
    ⟨some FINS_RETVAL_INVALID_READ_ADDRESS, data, [Event.decode_address text], []⟩
  | some address =>
  match env.XX_finslib_search_area s address 16 env.FI_RD false with
  | none =>
    ⟨some FINS_RETVAL_INVALID_READ_AREA, data,
      [Event.decode_address text, Event.search_area s address 16 env.FI_RD false], []⟩
  | some area =>
    let r := read_loop env s area fuel 0 (initial_chunk_start address area) 0 num_uint32 d
    ⟨r.retval, some r.data,
      [Event.decode_address text, Event.search_area s address 16 env.FI_RD false]
        ++ r.trace,
      r.iterations⟩

/-- Result of one call of the signed routine: as `Outcome`, with the destination
seen as `int32_t` elements. -/
structure SignedOutcome where
  retval : Option Retval
  data : Option (Nat → Int)
  trace : List Event
  iterations : List Iteration

/-- The 32-bit pattern of an `int32_t` element, as seen through a `uint32_t`
pointer. -/
def as_uint32 (v : Int) : Nat := (v % 2 ^ 32).toNat

/-- The `int32_t` value of a 32-bit pattern (two's complement). -/
def as_int32 (w : Nat) : Int :=
  if w % UINT32_MOD < 2 ^ 31 then ((w % UINT32_MOD : Nat) : Int)
  else ((w % UINT32_MOD : Nat) : Int) - 2 ^ 32

/-- Lines 48-52: `finslib_memory_area_read_int32` hands its arguments to the unsigned
routine, the destination pointer cast to `uint32_t *`: the unsigned routine
works on the 32-bit patterns of the elements, and the caller sees the
patterns left behind as `int32_t` values. -/
def finslib_memory_area_read_int32 (env : Env) (fuel : Nat) (sys : Option fins_sys_tp)
    (start : Option String) (data : Option (Nat → Int)) (num_int32 : Nat) : SignedOutcome :=
  let out := finslib_memory_area_read_uint32 env fuel sys start
    (data.map (fun d i => as_uint32 (d i))) num_int32
  ⟨out.retval, out.data.map (fun m i => as_int32 (m i)), out.trace, out.iterations⟩

/-- Lines 115-126 with the bounds of both arrays made explicit: the destination
has `count` elements and the reply body holds `body.length` bytes; `none`
stands for an access outside one of them. -/
def decode_loop_checked (count : Nat) (body : List Nat) (offset : Nat) :
    Nat → Nat → Nat → (Nat → Nat) → Option (Nat → Nat)
  | 0, _, _, data => some data
  | n + 1, a, bodylen, data =>
    if (offset + a) % SIZE_MOD < count ∧
        (bodylen + 2) % SIZE_MOD < body.length ∧ (bodylen + 3) % SIZE_MOD < body.length ∧
        (bodylen + 0) % SIZE_MOD < body.length ∧ (bodylen + 1) % SIZE_MOD < body.length then
      decode_loop_checked count body offset n (a + 1) ((bodylen + 4) % SIZE_MOD)
        (store data ((offset + a) % SIZE_MOD) (decode_value body bodylen))
    else none

/-! ## Observation of a run -/

/-- The two collaborator calls of one pass. -/
def pass_events (area : fins_area_tp) (p : Iteration) : List Event :=
  [Event.init_command 0x01 0x01,
   Event.communicate (request_body area p.chunk_start p.chunk_length) 6 true]

/-- The record of the pass started in the given loop state. -/
def pass_record (env : Env) (sys : fins_sys_tp) (area : fins_area_tp)
    (calls chunk_start offset todo : Nat) : Iteration :=
  ⟨chunk_start, next_chunk_length env todo, offset, todo,
    (env.XX_finslib_communicate sys calls
      (request_body area chunk_start (next_chunk_length env todo)) 6 true).1,
    (env.XX_finslib_communicate sys calls
      (request_body area chunk_start (next_chunk_length env todo)) 6 true).2⟩

/-- Relation between the records of two consecutive passes. -/
def next_pass (p q : Iteration) : Prop :=
  q.chunk_start = (p.chunk_start + p.chunk_length) % SIZE_MOD ∧
  q.offset = p.offset + p.chunk_length / 2 ∧
  q.todo = p.todo - p.chunk_length / 2

/-- The two lookups made before the loop starts. -/
def lookup_events (env : Env) (s : fins_sys_tp) (text : String) (address : fins_address_tp) :
    List Event :=
  [Event.decode_address text, Event.search_area s address 16 env.FI_RD false]

/-! ## Sample collaborators -/

/-- Sample collaborators: address text D100 decodes to word 100 of area 0x82, A500
to word 500 of area 0xB3, whose first word has the id 448 and the wire
address 0x01C0; the transport answers every request with two status bytes and
as many 16-bit units as the request asks for. -/
def sample_env (max_words : Nat) : Env where
  FINS_MAX_READ_WORDS_SYSWAY := max_words
  INVALID_SOCKET := -1
  FI_RD := 1
  XX_finslib_decode_address := fun text =>
    if text = "D100" then some ⟨0x82, 100⟩
    else if text = "A500" then some ⟨0xB3, 500⟩
    else none
  XX_finslib_search_area := fun _ address _ _ _ =>
    if address.area = 0x82 then some ⟨0x82, 0, 0⟩
    else if address.area = 0xB3 then some ⟨0xB3, 448, 0x01C000⟩
    else none
  XX_finslib_communicate := fun _ k body _ _ =>
    (FINS_RETVAL_SUCCESS,
      [0, 0] ++ (List.range (2 * (256 * body.getD 4 0 + body.getD 5 0))).map
        (fun j => (16 * k + j + 1) % 256))

/-- The four reply bytes of each value of a list, in wire order: low halfword
first, each halfword with its high byte first. -/
def reply_words : List Nat → List Nat
  | [] => []
  | v :: vs =>
    ((v >>> 8) &&& 0xFF) :: (v &&& 0xFF) :: ((v >>> 24) &&& 0xFF) :: ((v >>> 16) &&& 0xFF)
      :: reply_words vs

/-- A synthetic reply body: two status bytes followed by the bytes of the values. -/
def synthetic_reply (status0 status1 : Nat) (values : List Nat) : List Nat :=
  status0 :: status1 :: reply_words values

/-- Sample collaborators whose transport answers every request with the synthetic
reply for a fixed list of values. -/
def replay_env (max_words : Nat) (values : List Nat) : Env where
  FINS_MAX_READ_WORDS_SYSWAY := max_words
  INVALID_SOCKET := -1
  FI_RD := 1
  XX_finslib_decode_address := (sample_env max_words).XX_finslib_decode_address
  XX_finslib_search_area := (sample_env max_words).XX_finslib_search_area
  XX_finslib_communicate := fun _ _ _ _ _ =>
    (FINS_RETVAL_SUCCESS, synthetic_reply 0 0 values)

/-- Sample collaborators with a faulty transport: call number `fail_at` returns
the code `code` without a reply, call number `short_at` returns a reply that
is one byte short; every other call is answered as by `sample_env`. -/
def faulty_env (max_words fail_at short_at : Nat) (code : Retval) : Env where
  FINS_MAX_READ_WORDS_SYSWAY := max_words
  INVALID_SOCKET := -1
  FI_RD := 1
  XX_finslib_decode_address := (sample_env max_words).XX_finslib_decode_address
  XX_finslib_search_area := (sample_env max_words).XX_finslib_search_area
  XX_finslib_communicate := fun s k body bodylen wait =>
    if k = fail_at then (code, [])
    else if k = short_at then
      (FINS_RETVAL_SUCCESS,
        ((sample_env max_words).XX_finslib_communicate s k body bodylen wait).2.dropLast)
    else (sample_env max_words).XX_finslib_communicate s k body bodylen wait

/-- Sample collaborators whose decoder yields word 65534 of area 0x82 for every
address text, so that a read of more than one chunk crosses the wire address
65536. -/
def high_address_env (max_words : Nat) : Env where
  FINS_MAX_READ_WORDS_SYSWAY := max_words
  INVALID_SOCKET := -1
  FI_RD := 1
  XX_finslib_decode_address := fun _ => some ⟨0x82, 65534⟩
  XX_finslib_search_area := (sample_env max_words).XX_finslib_search_area
  XX_finslib_communicate := (sample_env max_words).XX_finslib_communicate

/-! ## Bit-level facts -/

theorem land_mask_eq (n : Nat) : n &&& 0xFFFFFFFE = 2 * ((n / 2) % 2 ^ 31) := by
  have h1 : n &&& 0xFFFFFFFE = Nat.bit false ((n / 2) &&& (2 ^ 31 - 1)) := by
    conv_lhs => rw [← Nat.bit_decomp n]
    have h2 : (0xFFFFFFFE : Nat) = Nat.bit false (2 ^ 31 - 1) := by decide
    rw [h2, Nat.land_bit, Nat.div2_val]
    simp
  rw [h1, Nat.and_pow_two_sub_one_eq_mod]
  simp [Nat.bit]

theorem land_ff_eq (n : Nat) : n &&& 0xff = n % 256 := by
  have h := Nat.and_pow_two_sub_one_eq_mod n 8
  simpa using h

theorem shiftRight_eight (n : Nat) : n >>> 8 = n / 256 := by
  rw [Nat.shiftRight_eq_div_pow]

theorem shiftLeft_eight (n : Nat) : n <<< 8 = n * 256 := by
  rw [Nat.shiftLeft_eq]

/-! ## The chunk length -/

theorem next_chunk_length_eq (env : Env) (todo : Nat) :
    next_chunk_length env todo =
      2 * ((min (env.FINS_MAX_READ_WORDS_SYSWAY % SIZE_MOD) ((todo * 2) % SIZE_MOD) / 2)
        % 2 ^ 31) := by
  unfold next_chunk_length
  simp only []
  rw [land_mask_eq]
  congr 3
  split <;> omega

theorem next_chunk_length_even (env : Env) (todo : Nat) :
    next_chunk_length env todo % 2 = 0 := by
  rw [next_chunk_length_eq]; omega

theorem next_chunk_length_lt (env : Env) (todo : Nat) :
    next_chunk_length env todo < 2 ^ 32 := by
  rw [next_chunk_length_eq]; omega

theorem next_chunk_length_le_max (env : Env) (todo : Nat) :
    next_chunk_length env todo ≤ env.FINS_MAX_READ_WORDS_SYSWAY := by
  rw [next_chunk_length_eq]
  have h1 := Nat.mod_le env.FINS_MAX_READ_WORDS_SYSWAY SIZE_MOD
  have h2 := Nat.mod_le
    (min (env.FINS_MAX_READ_WORDS_SYSWAY % SIZE_MOD) ((todo * 2) % SIZE_MOD) / 2) (2 ^ 31)
  omega

theorem next_chunk_length_half_le (env : Env) (todo : Nat) :
    next_chunk_length env todo / 2 ≤ todo := by
  rw [next_chunk_length_eq]
  have h1 := Nat.mod_le (todo * 2) SIZE_MOD
  have h2 := Nat.mod_le
    (min (env.FINS_MAX_READ_WORDS_SYSWAY % SIZE_MOD) ((todo * 2) % SIZE_MOD) / 2) (2 ^ 31)
  omega

/-- Without wrap-around of `todo*2` and with a maximum below `2^32`, a chunk
carries `min (M/2) todo` values. -/
theorem next_chunk_length_half (env : Env) (todo : Nat)
    (hM : env.FINS_MAX_READ_WORDS_SYSWAY < 2 ^ 32) (ht : todo * 2 < SIZE_MOD) :
    next_chunk_length env todo / 2 = min (env.FINS_MAX_READ_WORDS_SYSWAY / 2) todo := by
  rw [next_chunk_length_eq]
  have h1 : env.FINS_MAX_READ_WORDS_SYSWAY % SIZE_MOD = env.FINS_MAX_READ_WORDS_SYSWAY :=
    Nat.mod_eq_of_lt (by unfold SIZE_MOD; omega)
  rw [h1, Nat.mod_eq_of_lt ht]
  have h3 : min env.FINS_MAX_READ_WORDS_SYSWAY (todo * 2) / 2 < 2 ^ 31 := by omega
  rw [Nat.mod_eq_of_lt h3]
  omega

/-! ## The decoder -/

theorem bytes_or_eq_add (b0 b1 b2 b3 : Nat) (h0 : b0 < 256) (h1 : b1 < 256)
    (h3 : b3 < 256) :
    b2 <<< 24 ||| b3 <<< 16 ||| b0 <<< 8 ||| b1 =
      b2 * 2 ^ 24 + b3 * 2 ^ 16 + b0 * 2 ^ 8 + b1 := by
  have i1 : 2 ^ 8 * b0 ||| b1 = 2 ^ 8 * b0 + b1 :=
    (Nat.mul_add_lt_is_or (by omega) b0).symm
  have i2 : 2 ^ 16 * b3 ||| (2 ^ 8 * b0 + b1) = 2 ^ 16 * b3 + (2 ^ 8 * b0 + b1) :=
    (Nat.mul_add_lt_is_or (by omega) b3).symm
  have i3 : 2 ^ 24 * b2 ||| (2 ^ 16 * b3 + (2 ^ 8 * b0 + b1)) =
      2 ^ 24 * b2 + (2 ^ 16 * b3 + (2 ^ 8 * b0 + b1)) :=
    (Nat.mul_add_lt_is_or (by omega) b2).symm
  rw [Nat.or_assoc, Nat.or_assoc, Nat.shiftLeft_eq, Nat.shiftLeft_eq, Nat.shiftLeft_eq,
    Nat.mul_comm b0, Nat.mul_comm b3, Nat.mul_comm b2, i1, i2, i3]
  omega

/-- The seven assignments compute the halfword-swapped sum of the four bytes. -/
theorem decode_value_eq (body : List Nat) (bodylen : Nat) (hlen : bodylen + 3 < SIZE_MOD)
    (hb : ∀ b ∈ body, b < 256) :
    decode_value body bodylen =
      body.getD (bodylen + 2) 0 * 2 ^ 24 + body.getD (bodylen + 3) 0 * 2 ^ 16
        + body.getD bodylen 0 * 2 ^ 8 + body.getD (bodylen + 1) 0 := by
  have hget : ∀ i, body.getD i 0 < 256 := by
    intro i
    rw [List.getD_eq_getElem?_getD]
    cases h : body[i]? with
    | none => simp
    | some b => simpa using hb b (List.getElem?_mem h)
  have g0 := hget bodylen
  have g1 := hget (bodylen + 1)
  have g2 := hget (bodylen + 2)
  have g3 := hget (bodylen + 3)
  unfold decode_value
  simp only [shiftLeft_eight, Nat.add_zero]
  rw [Nat.mod_eq_of_lt (by omega : bodylen + 2 < SIZE_MOD),
    Nat.mod_eq_of_lt hlen, Nat.mod_eq_of_lt (by omega : bodylen < SIZE_MOD),
    Nat.mod_eq_of_lt (by omega : bodylen + 1 < SIZE_MOD)]
  unfold UINT32_MOD
  omega

theorem store_same (data : Nat → Nat) (i v : Nat) : store data i v i = v := by
  simp [store]

theorem store_other (data : Nat → Nat) (i v j : Nat) (h : j ≠ i) :
    store data i v j = data j := by
  simp [store, h]

/-- Effect of the `for` loop started at pass `a` with read position `bodylen`:
the slots `offset+a .. offset+a+n` receive the decoded values, every other
element keeps its value. -/
theorem decode_loop_spec (body : List Nat) (offset : Nat) :
    ∀ (n a bodylen : Nat) (data : Nat → Nat),
      offset + a + n ≤ SIZE_MOD → bodylen + 4 * n < SIZE_MOD → ∀ j,
      decode_loop body offset n a bodylen data j =
        if offset + a ≤ j ∧ j < offset + a + n then
          decode_value body (bodylen + 4 * (j - (offset + a)))
        else data j := by
  intro n
  induction n with
  | zero =>
    intro a bodylen data _ _ j
    rw [decode_loop, if_neg (by omega)]
  | succ n ih =>
    intro a bodylen data h1 h2 j
    rw [decode_loop, Nat.mod_eq_of_lt (by omega : bodylen + 4 < SIZE_MOD),
      Nat.mod_eq_of_lt (by omega : offset + a < SIZE_MOD)]
    rw [ih (a + 1) (bodylen + 4) _ (by omega) (by omega) j]
    by_cases hj : j = offset + a
    · subst hj
      rw [if_neg (by omega), if_pos (by omega), store_same]
      simp
    · by_cases hr : offset + a ≤ j ∧ j < offset + a + (n + 1)
      · rw [if_pos (by omega), if_pos hr]
        congr 1
        omega
      · rw [if_neg (by omega), if_neg hr, store_other _ _ _ _ hj]

/-! ## The chunk loop -/

/-- The four ways in which a pass of the loop can end. -/
theorem read_loop_cases (env : Env) (sys : fins_sys_tp) (area : fins_area_tp)
    (fuel calls chunk_start offset todo : Nat) (data : Nat → Nat) :
    let p := pass_record env sys area calls chunk_start offset todo
    let r := read_loop env sys area (fuel + 1) calls chunk_start offset todo data
    let r1 := read_loop env sys area fuel (calls + 1)
      ((chunk_start + p.chunk_length) % SIZE_MOD)
      ((offset + p.chunk_length / 2) % SIZE_MOD)
      ((todo + (SIZE_MOD - (p.chunk_length / 2) % SIZE_MOD)) % SIZE_MOD)
      (decode_loop p.reply offset (p.chunk_length / 2) 0 2 data)
    (p.retval ≠ FINS_RETVAL_SUCCESS ∧ r = ⟨some p.retval, data, pass_events area p, [p]⟩) ∨
    (p.retval = FINS_RETVAL_SUCCESS ∧ p.reply.length ≠ (2 + 2 * p.chunk_length) % SIZE_MOD ∧
      r = ⟨some FINS_RETVAL_BODY_TOO_SHORT, data, pass_events area p, [p]⟩) ∨
    (p.retval = FINS_RETVAL_SUCCESS ∧ p.reply.length = (2 + 2 * p.chunk_length) % SIZE_MOD ∧
      (todo + (SIZE_MOD - (p.chunk_length / 2) % SIZE_MOD)) % SIZE_MOD = 0 ∧
      r = ⟨some FINS_RETVAL_SUCCESS,
            decode_loop p.reply offset (p.chunk_length / 2) 0 2 data,
            pass_events area p, [p]⟩) ∨
    (p.retval = FINS_RETVAL_SUCCESS ∧ p.reply.length = (2 + 2 * p.chunk_length) % SIZE_MOD ∧
      0 < (todo + (SIZE_MOD - (p.chunk_length / 2) % SIZE_MOD)) % SIZE_MOD ∧
      r = ⟨r1.retval, r1.data, pass_events area p ++ r1.trace, p :: r1.iterations⟩) := by
  intro p r r1
  have hr : r = read_loop env sys area (fuel + 1) calls chunk_start offset todo data := rfl
  simp only [read_loop] at hr
  split_ifs at hr with c1 c2 c3
  · exact Or.inl ⟨c1, hr⟩
  · exact Or.inr (Or.inl ⟨not_not.mp c1, c2, hr⟩)
  · exact Or.inr (Or.inr (Or.inr ⟨not_not.mp c1, not_not.mp c2, c3, hr⟩))
  · exact Or.inr (Or.inr (Or.inl ⟨not_not.mp c1, not_not.mp c2, by
      have c4 : ¬ 0 < (todo + (SIZE_MOD - (next_chunk_length env todo / 2) % SIZE_MOD))
        % SIZE_MOD := c3
      show (todo + (SIZE_MOD - (next_chunk_length env todo / 2) % SIZE_MOD)) % SIZE_MOD = 0
      omega, hr⟩))

theorem todo_step (env : Env) (todo : Nat) (h : todo < SIZE_MOD) :
    (todo + (SIZE_MOD - (next_chunk_length env todo / 2) % SIZE_MOD)) % SIZE_MOD
      = todo - next_chunk_length env todo / 2 := by
  have h1 := next_chunk_length_half_le env todo
  have h2 : (next_chunk_length env todo / 2) % SIZE_MOD = next_chunk_length env todo / 2 :=
    Nat.mod_eq_of_lt (by omega)
  rw [h2]
  have h3 : todo + (SIZE_MOD - next_chunk_length env todo / 2)
      = (todo - next_chunk_length env todo / 2) + SIZE_MOD := by omega
  rw [h3, Nat.add_mod_right, Nat.mod_eq_of_lt (by omega)]

/-- Shape of the log of a loop run: first record, trace, step relation between
consecutive records, the invariant `offset + todo`, and the sum of the chunk
word counts after a successful run. -/
theorem read_loop_log (env : Env) (sys : fins_sys_tp) (area : fins_area_tp) :
    ∀ (fuel calls chunk_start offset todo : Nat) (data : Nat → Nat),
      todo < SIZE_MOD → offset + todo < SIZE_MOD →
      (∀ q ∈ (read_loop env sys area fuel calls chunk_start offset todo data).iterations.head?,
        q = pass_record env sys area calls chunk_start offset todo) ∧
      (read_loop env sys area fuel calls chunk_start offset todo data).trace =
        (read_loop env sys area fuel calls chunk_start offset todo data).iterations.flatMap
          (pass_events area) ∧
      List.Chain' next_pass
        (read_loop env sys area fuel calls chunk_start offset todo data).iterations ∧
      (∀ p ∈ (read_loop env sys area fuel calls chunk_start offset todo data).iterations,
        p.offset + p.todo = offset + todo ∧
        p.chunk_length = next_chunk_length env p.todo ∧ p.chunk_length / 2 ≤ p.todo) ∧
      ((read_loop env sys area fuel calls chunk_start offset todo data).retval
          = some FINS_RETVAL_SUCCESS →
        ((read_loop env sys area fuel calls chunk_start offset todo data).iterations.map
          (fun p => p.chunk_length / 2)).sum = todo) := by
  intro fuel
  induction fuel with
  | zero =>
    intro calls chunk_start offset todo data _ _
    simp [read_loop]
  | succ fuel ih =>
    intro calls chunk_start offset todo data ht ho
    have hle := next_chunk_length_half_le env todo
    have hstep := todo_step env todo ht
    have e : (pass_record env sys area calls chunk_start offset todo).chunk_length
        = next_chunk_length env todo := rfl
    have hp : ∀ p ∈ [pass_record env sys area calls chunk_start offset todo],
        p.offset + p.todo = offset + todo ∧
        p.chunk_length = next_chunk_length env p.todo ∧ p.chunk_length / 2 ≤ p.todo := by
      intro p hp
      rw [List.mem_singleton] at hp
      subst hp
      exact ⟨rfl, rfl, hle⟩
    have hh : ∀ q ∈ [pass_record env sys area calls chunk_start offset todo].head?,
        q = pass_record env sys area calls chunk_start offset todo := by
      intro q hq
      simpa using hq.symm
    rcases read_loop_cases env sys area fuel calls chunk_start offset todo data with
      ⟨h1, hr⟩ | ⟨_, _, hr⟩ | ⟨_, _, h3, hr⟩ | ⟨_, _, h3, hr⟩
    · rw [hr]
      refine ⟨hh, by simp [List.flatMap], List.chain'_singleton _, hp, fun hs => ?_⟩
      exact absurd (Option.some.inj hs) h1
    · rw [hr]
      refine ⟨hh, by simp [List.flatMap], List.chain'_singleton _, hp, fun hs => ?_⟩
      simp at hs
    · rw [hr]
      refine ⟨hh, by simp [List.flatMap], List.chain'_singleton _, hp, fun _ => ?_⟩
      rw [e] at h3
      simp only [List.map_cons, List.map_nil, List.sum_cons, List.sum_nil, e]
      omega
    · rw [hr]
      rw [e] at h3 ⊢
      rw [hstep] at h3 ⊢
      rw [Nat.mod_eq_of_lt (by omega : offset + next_chunk_length env todo / 2 < SIZE_MOD)]
      obtain ⟨g1, g2, g3, g4, g5⟩ := ih (calls + 1)
        ((chunk_start + next_chunk_length env todo) % SIZE_MOD)
        (offset + next_chunk_length env todo / 2) (todo - next_chunk_length env todo / 2)
        (decode_loop (pass_record env sys area calls chunk_start offset todo).reply offset
          (next_chunk_length env todo / 2) 0 2 data) (by omega) (by omega)
      refine ⟨?_, ?_, ?_, ?_, ?_⟩
      · intro q hq
        simpa using hq.symm
      · show pass_events area _ ++ _ = _
        rw [g2]
        simp [List.flatMap]
      · show List.Chain' next_pass (_ :: _)
        rw [List.chain'_cons']
        refine ⟨?_, g3⟩
        intro q hq
        rw [g1 q hq]
        exact ⟨rfl, rfl, rfl⟩
      · intro p hp'
        rcases List.mem_cons.mp hp' with hp' | hp'
        · subst hp'
          exact ⟨rfl, rfl, hle⟩
        · obtain ⟨a1, a2, a3⟩ := g4 p hp'
          exact ⟨by omega, a2, a3⟩
      · intro hs
        have := g5 hs
        show (List.map (fun p : Iteration => p.chunk_length / 2) (_ :: _)).sum = todo
        simp only [List.map_cons, List.sum_cons, e, this]
        omega

/-- A count of `2^63` or more never lets the loop end with success: `todo*2` wraps
around and `todo` stays at or above `2^63`. -/
theorem read_loop_large (env : Env) (sys : fins_sys_tp) (area : fins_area_tp) :
    ∀ (fuel calls chunk_start offset todo : Nat) (data : Nat → Nat),
      2 ^ 63 ≤ todo → todo < SIZE_MOD →
      (read_loop env sys area fuel calls chunk_start offset todo data).retval
        ≠ some FINS_RETVAL_SUCCESS := by
  intro fuel
  induction fuel with
  | zero =>
    intro calls chunk_start offset todo data _ _
    simp [read_loop]
  | succ fuel ih =>
    intro calls chunk_start offset todo data hl ht
    have hstep := todo_step env todo ht
    have hhalf : next_chunk_length env todo / 2 ≤ todo - 2 ^ 63 := by
      rw [next_chunk_length_eq]
      have h2 := Nat.mod_le
        (min (env.FINS_MAX_READ_WORDS_SYSWAY % SIZE_MOD) ((todo * 2) % SIZE_MOD) / 2) (2 ^ 31)
      have h3 : (todo * 2) % SIZE_MOD = todo * 2 - 2 ^ 64 := by
        unfold SIZE_MOD at ht ⊢
        omega
      rw [h3] at h2 ⊢
      omega
    have e : (pass_record env sys area calls chunk_start offset todo).chunk_length
        = next_chunk_length env todo := rfl
    rcases read_loop_cases env sys area fuel calls chunk_start offset todo data with
      ⟨h1, hr⟩ | ⟨_, _, hr⟩ | ⟨_, _, h3, hr⟩ | ⟨_, _, h3, hr⟩
    · rw [hr]
      intro hs
      exact h1 (Option.some.inj hs)
    · rw [hr]; simp
    · rw [e, hstep] at h3
      omega
    · rw [hr, e, hstep]
      exact ih _ _ _ _ _ (by omega) (by omega)

/-- Contents of the destination after a successful loop run: element `i` of the
range still to be read comes from reply number `(i - offset) / K` at byte
position `2 + 4 * ((i - offset) % K)`, with `K` values per full chunk; every
other element is untouched. -/
theorem read_loop_data (env : Env) (sys : fins_sys_tp) (area : fins_area_tp)
    (hM2 : 2 ≤ env.FINS_MAX_READ_WORDS_SYSWAY) (hM : env.FINS_MAX_READ_WORDS_SYSWAY < 2 ^ 32) :
    ∀ (fuel calls chunk_start offset todo : Nat) (data : Nat → Nat),
      (read_loop env sys area fuel calls chunk_start offset todo data).retval
        = some FINS_RETVAL_SUCCESS →
      todo * 2 < SIZE_MOD → offset + todo < SIZE_MOD →
      ∀ i, (offset ≤ i ∧ i < offset + todo →
          ∃ p, (read_loop env sys area fuel calls chunk_start offset todo data).iterations[
                (i - offset) / (env.FINS_MAX_READ_WORDS_SYSWAY / 2)]? = some p ∧
            (read_loop env sys area fuel calls chunk_start offset todo data).data i =
              decode_value p.reply
                (2 + 4 * ((i - offset) % (env.FINS_MAX_READ_WORDS_SYSWAY / 2)))) ∧
        (¬ (offset ≤ i ∧ i < offset + todo) →
          (read_loop env sys area fuel calls chunk_start offset todo data).data i = data i) := by
  intro fuel
  induction fuel with
  | zero =>
    intro calls chunk_start offset todo data h
    simp [read_loop] at h
  | succ fuel ih =>
    intro calls chunk_start offset todo data hs ht ho i
    have ht' : todo < SIZE_MOD := by omega
    have hstep := todo_step env todo ht'
    have hhalf := next_chunk_length_half env todo hM ht
    have hK : 0 < env.FINS_MAX_READ_WORDS_SYSWAY / 2 := by omega
    have hS : SIZE_MOD = 2 ^ 64 := rfl
    have e : (pass_record env sys area calls chunk_start offset todo).chunk_length
        = next_chunk_length env todo := rfl
    rcases read_loop_cases env sys area fuel calls chunk_start offset todo data with
      ⟨h1, hr⟩ | ⟨_, _, hr⟩ | ⟨_, _, h3, hr⟩ | ⟨_, _, h3, hr⟩
    · rw [hr] at hs
      exact absurd (Option.some.inj hs) h1
    · rw [hr] at hs
      simp at hs
    · rw [hr]
      rw [e, hstep] at h3
      have hn : next_chunk_length env todo / 2 = todo := by omega
      have hd : ∀ j, decode_loop (pass_record env sys area calls chunk_start offset todo).reply
          offset (next_chunk_length env todo / 2) 0 2 data j =
          if offset ≤ j ∧ j < offset + todo then
            decode_value (pass_record env sys area calls chunk_start offset todo).reply
              (2 + 4 * (j - offset))
          else data j := by
        intro j
        rw [decode_loop_spec _ _ _ _ _ _ (by omega) (by omega), hn]
        simp only [Nat.add_zero]
      constructor
      · intro hi
        have hlt : i - offset < env.FINS_MAX_READ_WORDS_SYSWAY / 2 := by omega
        refine ⟨pass_record env sys area calls chunk_start offset todo, ?_, ?_⟩
        · rw [Nat.div_eq_of_lt hlt]
          exact List.getElem?_cons_zero
        · rw [Nat.mod_eq_of_lt hlt]
          show decode_loop _ offset (_ / 2) 0 2 data i = _
          rw [e, hd i, if_pos (by omega)]
      · intro hi
        show decode_loop _ offset (_ / 2) 0 2 data i = _
        rw [e, hd i, if_neg (by omega)]
    · rw [hr] at hs ⊢
      rw [e] at h3 hs ⊢
      rw [hstep] at h3 hs ⊢
      have hn : next_chunk_length env todo / 2 = env.FINS_MAX_READ_WORDS_SYSWAY / 2 := by
        omega
      rw [Nat.mod_eq_of_lt (by omega : offset + next_chunk_length env todo / 2 < SIZE_MOD),
        hn] at hs ⊢
      obtain ⟨hin, hout⟩ := ih _ _ _ _ _ hs (by omega) (by omega) i
      have hd : ∀ j, decode_loop (pass_record env sys area calls chunk_start offset todo).reply
          offset (env.FINS_MAX_READ_WORDS_SYSWAY / 2) 0 2 data j =
          if offset ≤ j ∧ j < offset + env.FINS_MAX_READ_WORDS_SYSWAY / 2 then
            decode_value (pass_record env sys area calls chunk_start offset todo).reply
              (2 + 4 * (j - offset))
          else data j := by
        intro j
        rw [decode_loop_spec _ _ _ _ _ _ (by omega) (by omega)]
        simp only [Nat.add_zero]
      constructor
      · intro hi
        by_cases hi2 : offset + env.FINS_MAX_READ_WORDS_SYSWAY / 2 ≤ i
        · obtain ⟨p, hp, hv⟩ := hin (by omega)
          have hsplit : i - offset = (i - (offset + env.FINS_MAX_READ_WORDS_SYSWAY / 2))
              + env.FINS_MAX_READ_WORDS_SYSWAY / 2 := by omega
          refine ⟨p, ?_, ?_⟩
          · rw [hsplit, Nat.add_div_right _ hK]
            show (_ :: _)[_ + 1]? = some p
            rw [List.getElem?_cons_succ]
            exact hp
          · rw [hsplit, Nat.add_mod_right]
            exact hv
        · have hlt : i - offset < env.FINS_MAX_READ_WORDS_SYSWAY / 2 := by omega
          refine ⟨pass_record env sys area calls chunk_start offset todo, ?_, ?_⟩
          · rw [Nat.div_eq_of_lt hlt]
            exact List.getElem?_cons_zero
          · rw [Nat.mod_eq_of_lt hlt]
            show (read_loop _ _ _ _ _ _ _ _ _).data i = _
            rw [hout (by omega), hd i, if_pos (by omega)]
      · intro hi
        show (read_loop _ _ _ _ _ _ _ _ _).data i = _
        rw [hout (by omega), hd i, if_neg (by omega)]

/-- Every record of the log holds the answer of the transport call of its pass. -/
theorem read_loop_answers (env : Env) (sys : fins_sys_tp) (area : fins_area_tp) :
    ∀ (fuel calls chunk_start offset todo : Nat) (data : Nat → Nat) (k : Nat) (p : Iteration),
      (read_loop env sys area fuel calls chunk_start offset todo data).iterations[k]? = some p →
        (p.retval, p.reply) = env.XX_finslib_communicate sys (calls + k)
          (request_body area p.chunk_start p.chunk_length) 6 true := by
  intro fuel
  induction fuel with
  | zero =>
    intro calls chunk_start offset todo data k p h
    simp [read_loop] at h
  | succ fuel ih =>
    intro calls chunk_start offset todo data k p hk
    have single : ∀ (k : Nat) (p : Iteration),
        [pass_record env sys area calls chunk_start offset todo][k]? = some p →
        (p.retval, p.reply) = env.XX_finslib_communicate sys (calls + k)
          (request_body area p.chunk_start p.chunk_length) 6 true := by
      intro k p hk
      cases k with
      | zero =>
        simp only [List.getElem?_cons_zero, Option.some.injEq] at hk
        subst hk
        rfl
      | succ k => simp at hk
    rcases read_loop_cases env sys area fuel calls chunk_start offset todo data with
      ⟨_, hr⟩ | ⟨_, _, hr⟩ | ⟨_, _, _, hr⟩ | ⟨_, _, _, hr⟩
    · rw [hr] at hk; exact single k p hk
    · rw [hr] at hk; exact single k p hk
    · rw [hr] at hk; exact single k p hk
    · rw [hr] at hk
      cases k with
      | zero =>
        simp only [List.getElem?_cons_zero, Option.some.injEq] at hk
        subst hk
        rfl
      | succ k =>
        simp only [List.getElem?_cons_succ] at hk
        have := ih _ _ _ _ _ k p hk
        rw [this]
        congr 1
        omega

/-- First pass of a loop run: its record and its two collaborator calls. -/
theorem read_loop_head (env : Env) (sys : fins_sys_tp) (area : fins_area_tp)
    (fuel calls chunk_start offset todo : Nat) (data : Nat → Nat) (hf : 0 < fuel) :
    ∃ rest tail,
      (read_loop env sys area fuel calls chunk_start offset todo data).iterations =
        pass_record env sys area calls chunk_start offset todo :: rest ∧
      (read_loop env sys area fuel calls chunk_start offset todo data).trace =
        pass_events area (pass_record env sys area calls chunk_start offset todo) ++ tail := by
  cases fuel with
  | zero => omega
  | succ fuel =>
    rcases read_loop_cases env sys area fuel calls chunk_start offset todo data with
      ⟨_, hr⟩ | ⟨_, _, hr⟩ | ⟨_, _, _, hr⟩ | ⟨_, _, _, hr⟩
    · rw [hr]; exact ⟨[], [], rfl, by simp⟩
    · rw [hr]; exact ⟨[], [], rfl, by simp⟩
    · rw [hr]; exact ⟨[], [], rfl, by simp⟩
    · rw [hr]; exact ⟨_, _, rfl, rfl⟩

/-- With a transport that answers every request with success and a reply of the
expected length, a loop run over `todo` values needs at most `todo` passes
and ends with success. -/
theorem read_loop_total (env : Env) (sys : fins_sys_tp) (area : fins_area_tp)
    (hM2 : 2 ≤ env.FINS_MAX_READ_WORDS_SYSWAY) (hM : env.FINS_MAX_READ_WORDS_SYSWAY < 2 ^ 32)
    (hgood : ∀ k chunk_start chunk_length, chunk_length ≤ env.FINS_MAX_READ_WORDS_SYSWAY →
      (env.XX_finslib_communicate sys k (request_body area chunk_start chunk_length) 6 true).1
        = FINS_RETVAL_SUCCESS ∧
      (env.XX_finslib_communicate sys k (request_body area chunk_start chunk_length) 6 true).2.length
        = 2 + 2 * chunk_length) :
    ∀ (fuel calls chunk_start offset todo : Nat) (data : Nat → Nat),
      0 < todo → todo * 2 < SIZE_MOD → todo ≤ fuel →
      (read_loop env sys area fuel calls chunk_start offset todo data).retval
        = some FINS_RETVAL_SUCCESS := by
  intro fuel
  induction fuel with
  | zero =>
    intro calls chunk_start offset todo data h0 _ hf
    omega
  | succ fuel ih =>
    intro calls chunk_start offset todo data h0 ht hf
    have hstep := todo_step env todo (by omega)
    have hhalf := next_chunk_length_half env todo hM ht
    have hlt := next_chunk_length_lt env todo
    have hS : SIZE_MOD = 2 ^ 64 := rfl
    have e : (pass_record env sys area calls chunk_start offset todo).chunk_length
        = next_chunk_length env todo := rfl
    obtain ⟨g1, g2⟩ := hgood calls chunk_start (next_chunk_length env todo)
      (next_chunk_length_le_max env todo)
    rcases read_loop_cases env sys area fuel calls chunk_start offset todo data with
      ⟨h1, _⟩ | ⟨_, h2, _⟩ | ⟨_, _, _, hr⟩ | ⟨_, _, h3, hr⟩
    · exact absurd g1 h1
    · exfalso
      apply h2
      rw [e, Nat.mod_eq_of_lt (by omega)]
      exact g2
    · rw [hr]
    · rw [hr]
      rw [e, hstep] at h3 ⊢
      exact ih _ _ _ _ _ h3 (by omega) (by omega)

/-! ## The entry point -/

/-- A call that passes every check runs the loop from the initial state. -/
theorem read_uint32_valid (env : Env) (fuel : Nat) (s : fins_sys_tp) (text : String)
    (d : Nat → Nat) (count : Nat) (address : fins_address_tp) (area : fins_area_tp)
    (hc : count ≠ 0) (hsock : s.sockfd ≠ env.INVALID_SOCKET)
    (haddr : env.XX_finslib_decode_address text = some address)
    (harea : env.XX_finslib_search_area s address 16 env.FI_RD false = some area) :
    finslib_memory_area_read_uint32 env fuel (some s) (some text) (some d) count =
      ⟨(read_loop env s area fuel 0 (initial_chunk_start address area) 0 count d).retval,
        some (read_loop env s area fuel 0 (initial_chunk_start address area) 0 count d).data,
        lookup_events env s text address ++
          (read_loop env s area fuel 0 (initial_chunk_start address area) 0 count d).trace,
        (read_loop env s area fuel 0 (initial_chunk_start address area) 0 count d).iterations⟩ := by
  simp only [finslib_memory_area_read_uint32, if_neg hc, if_neg hsock, haddr, harea,
    lookup_events]

theorem chain_getElem {α : Type} (R : α → α → Prop) :
    ∀ (l : List α), List.Chain' R l →
      ∀ (k : Nat) (p q : α), l[k]? = some p → l[k + 1]? = some q → R p q := by
  intro l
  induction l with
  | nil => intro _ k p q hp; simp at hp
  | cons x xs ih =>
    intro hch k p q hp hq
    rw [List.chain'_cons'] at hch
    cases k with
    | zero =>
      simp only [List.getElem?_cons_zero, Option.some.injEq] at hp
      simp only [List.getElem?_cons_succ] at hq
      subst hp
      apply hch.1 q
      cases xs with
      | nil => simp at hq
      | cons y ys =>
        simp only [List.getElem?_cons_zero, Option.some.injEq] at hq
        simp [hq]
    | succ k =>
      simp only [List.getElem?_cons_succ] at hp hq
      exact ih hch.2 k p q hp hq

theorem initial_chunk_start_eq (address : fins_address_tp) (area : fins_area_tp) :
    (initial_chunk_start address area : Int) =
      ((address.main_address : Int) + ((area.low_addr >>> 8 : Nat) : Int)
        - (area.low_id : Int)) % 2 ^ 64 := by
  unfold initial_chunk_start SIZE_MOD
  simp only []
  generalize address.main_address = m
  generalize area.low_addr >>> 8 = a
  generalize area.low_id = l
  omega

theorem flatMap_congr_mem {α β : Type} (f g : α → List β) :
    ∀ (l : List α), (∀ x ∈ l, f x = g x) → l.flatMap f = l.flatMap g := by
  intro l
  induction l with
  | nil => intro _; rfl
  | cons x xs ih =>
    intro h
    rw [List.flatMap_cons, List.flatMap_cons, h x (List.mem_cons_self x xs),
      ih (fun y hy => h y (List.mem_cons_of_mem x hy))]

/-- With a transport that answers every request with success and a reply of the
expected length, a call that passes the checks returns success within
`count` passes. -/
theorem read_uint32_total (env : Env) (fuel : Nat) (s : fins_sys_tp) (text : String)
    (d : Nat → Nat) (count : Nat) (address : fins_address_tp) (area : fins_area_tp)
    (hM2 : 2 ≤ env.FINS_MAX_READ_WORDS_SYSWAY) (hM : env.FINS_MAX_READ_WORDS_SYSWAY < 2 ^ 32)
    (hc : 0 < count) (hcs : count * 2 < SIZE_MOD) (hf : count ≤ fuel)
    (hsock : s.sockfd ≠ env.INVALID_SOCKET)
    (haddr : env.XX_finslib_decode_address text = some address)
    (harea : env.XX_finslib_search_area s address 16 env.FI_RD false = some area)
    (hgood : ∀ k chunk_start chunk_length, chunk_length ≤ env.FINS_MAX_READ_WORDS_SYSWAY →
      (env.XX_finslib_communicate s k (request_body area chunk_start chunk_length) 6 true).1
        = FINS_RETVAL_SUCCESS ∧
      (env.XX_finslib_communicate s k (request_body area chunk_start chunk_length) 6 true).2.length
        = 2 + 2 * chunk_length) :
    (finslib_memory_area_read_uint32 env fuel (some s) (some text) (some d) count).retval
      = some FINS_RETVAL_SUCCESS := by
  rw [read_uint32_valid env fuel s text d count address area (by omega) hsock haddr harea]
  exact read_loop_total env s area hM2 hM hgood fuel 0 _ 0 count d hc hcs hf

/-- The sample transport answers every request of at most 65535 units with
success and a reply of the expected length. -/
theorem sample_env_good (max_words : Nat) (s : fins_sys_tp) (area : fins_area_tp)
    (k chunk_start chunk_length : Nat) (h : chunk_length < 65536) :
    ((sample_env max_words).XX_finslib_communicate s k
        (request_body area chunk_start chunk_length) 6 true).1 = FINS_RETVAL_SUCCESS ∧
    ((sample_env max_words).XX_finslib_communicate s k
        (request_body area chunk_start chunk_length) 6 true).2.length
      = 2 + 2 * chunk_length := by
  refine ⟨rfl, ?_⟩
  simp only [sample_env, request_body, List.length_append, List.length_cons, List.length_nil,
    List.length_map, List.length_range, List.getD_cons_succ, List.getD_cons_zero,
    land_ff_eq, shiftRight_eight]
  omega

/-! ## The claims -/

/-- C1: after a successful read of `count > 0` values, element `i` of the
destination is the value decoded from the four bytes at position
`2 + 4 * (i mod K)` of the reply to transport call number `i div K`, where
`K = FINS_MAX_READ_WORDS_SYSWAY / 2`; and with a transport that answers every
request with success and a reply of the expected length, the read is
successful within `count` passes. -/
theorem read_uint32_output (env : Env) (fuel : Nat) (s : fins_sys_tp) (text : String)
    (d : Nat → Nat) (count : Nat) (address : fins_address_tp) (area : fins_area_tp)
    (hM2 : 2 ≤ env.FINS_MAX_READ_WORDS_SYSWAY) (hM : env.FINS_MAX_READ_WORDS_SYSWAY < 2 ^ 32)
    (hc : 0 < count) (hcs : count < SIZE_MOD)
    (hsock : s.sockfd ≠ env.INVALID_SOCKET)
    (haddr : env.XX_finslib_decode_address text = some address)
    (harea : env.XX_finslib_search_area s address 16 env.FI_RD false = some area) :
    ((finslib_memory_area_read_uint32 env fuel (some s) (some text) (some d) count).retval
        = some FINS_RETVAL_SUCCESS →
      ∃ d1, (finslib_memory_area_read_uint32 env fuel (some s) (some text) (some d)
          count).data = some d1 ∧
        ∀ i, i < count →
          ∃ p, (finslib_memory_area_read_uint32 env fuel (some s) (some text) (some d)
              count).iterations[i / (env.FINS_MAX_READ_WORDS_SYSWAY / 2)]? = some p ∧
            p.reply = (env.XX_finslib_communicate s (i / (env.FINS_MAX_READ_WORDS_SYSWAY / 2))
              (request_body area p.chunk_start p.chunk_length) 6 true).2 ∧
            d1 i = decode_value p.reply
              (2 + 4 * (i % (env.FINS_MAX_READ_WORDS_SYSWAY / 2)))) ∧
    ((∀ k chunk_start chunk_length, chunk_length ≤ env.FINS_MAX_READ_WORDS_SYSWAY →
        (env.XX_finslib_communicate s k (request_body area chunk_start chunk_length) 6
          true).1 = FINS_RETVAL_SUCCESS ∧
        (env.XX_finslib_communicate s k (request_body area chunk_start chunk_length) 6
          true).2.length = 2 + 2 * chunk_length) →
      count * 2 < SIZE_MOD → count ≤ fuel →
      (finslib_memory_area_read_uint32 env fuel (some s) (some text) (some d) count).retval
        = some FINS_RETVAL_SUCCESS) := by
  constructor
  · rw [read_uint32_valid env fuel s text d count address area (by omega) hsock haddr harea]
    intro hok
    refine ⟨_, rfl, ?_⟩
    intro i hi
    have hok' : (read_loop env s area fuel 0 (initial_chunk_start address area) 0 count
        d).retval = some FINS_RETVAL_SUCCESS := hok
    have hsmall : count * 2 < SIZE_MOD := by
      by_contra hbig
      exact read_loop_large env s area fuel 0 _ 0 count d
        (by unfold SIZE_MOD at hbig; omega) hcs hok'
    obtain ⟨hin, _⟩ := read_loop_data env s area hM2 hM fuel 0 _ 0 count d hok' hsmall
      (by omega) i
    obtain ⟨p, hp, hv⟩ := hin (by omega)
    rw [Nat.sub_zero] at hp hv
    refine ⟨p, hp, ?_, hv⟩
    have ha := read_loop_answers env s area fuel 0 _ 0 count d _ p hp
    rw [Nat.zero_add] at ha
    rw [← ha]
  · intro hgood hsmall hf
    exact read_uint32_total env fuel s text d count address area hM2 hM hc hsmall hf hsock
      haddr harea hgood

set_option maxRecDepth 100000 in
theorem read_uint32_output_witness :
    (finslib_memory_area_read_uint32 (sample_env 4) 3 (some ⟨5⟩) (some "D100")
        (some (fun _ => 0)) 3).retval = some FINS_RETVAL_SUCCESS ∧
    ∃ d1, (finslib_memory_area_read_uint32 (sample_env 4) 3 (some ⟨5⟩) (some "D100")
        (some (fun _ => 0)) 3).data = some d1 ∧
      ∀ i, i < 3 →
        ∃ p, (finslib_memory_area_read_uint32 (sample_env 4) 3 (some ⟨5⟩) (some "D100")
            (some (fun _ => 0)) 3).iterations[i / (4 / 2)]? = some p ∧
          p.reply = ((sample_env 4).XX_finslib_communicate ⟨5⟩ (i / (4 / 2))
            (request_body ⟨0x82, 0, 0⟩ p.chunk_start p.chunk_length) 6 true).2 ∧
          d1 i = decode_value p.reply (2 + 4 * (i % (4 / 2))) :=
  ⟨(read_uint32_output (sample_env 4) 3 ⟨5⟩ "D100" (fun _ => 0) 3 ⟨0x82, 100⟩ ⟨0x82, 0, 0⟩
      (by decide) (by decide) (by decide) (by decide) (by decide) (by decide)
      (by decide)).2
        (fun k cs cl h => sample_env_good 4 ⟨5⟩ ⟨0x82, 0, 0⟩ k cs cl
          (Nat.lt_of_le_of_lt h (by decide)))
        (by decide) (by decide),
    (read_uint32_output (sample_env 4) 3 ⟨5⟩ "D100" (fun _ => 0) 3 ⟨0x82, 100⟩ ⟨0x82, 0, 0⟩
      (by decide) (by decide) (by decide) (by decide) (by decide) (by decide)
      (by decide)).1 (by decide)⟩

/-- C2: for a reply of length `2 + 4 * n` made of bytes, the decode loop leaves in
slot `i < n` of the chunk the value `(b2<<24) | (b3<<16) | (b0<<8) | b1`, where
`b0 .. b3` are the reply bytes at positions `2 + 4 * i .. 2 + 4 * i + 3`; the
value fits in 32 bits. -/
theorem decode_loop_value (reply : List Nat) (offset n i : Nat) (data : Nat → Nat)
    (hb : ∀ b ∈ reply, b < 256) (hlen : reply.length = 2 + 4 * n)
    (hsize : reply.length < SIZE_MOD) (ho : offset + n ≤ SIZE_MOD) (hi : i < n) :
    decode_loop reply offset n 0 2 data (offset + i) =
      reply.getD (2 + 4 * i + 2) 0 <<< 24 ||| reply.getD (2 + 4 * i + 3) 0 <<< 16
        ||| reply.getD (2 + 4 * i) 0 <<< 8 ||| reply.getD (2 + 4 * i + 1) 0 ∧
    decode_loop reply offset n 0 2 data (offset + i) < 2 ^ 32 := by
  have hget : ∀ k, reply.getD k 0 < 256 := by
    intro k
    rw [List.getD_eq_getElem?_getD]
    cases h : reply[k]? with
    | none => simp
    | some b => simpa using hb b (List.getElem?_mem h)
  have g0 := hget (2 + 4 * i)
  have g1 := hget (2 + 4 * i + 1)
  have g2 := hget (2 + 4 * i + 2)
  have g3 := hget (2 + 4 * i + 3)
  rw [decode_loop_spec reply offset n 0 2 data (by omega) (by omega) (offset + i),
    if_pos (by omega)]
  have hidx : 2 + 4 * (offset + i - (offset + 0)) = 2 + 4 * i := by omega
  rw [hidx, decode_value_eq reply (2 + 4 * i) (by omega) hb,
    bytes_or_eq_add _ _ _ _ g0 g1 g3]
  exact ⟨rfl, by omega⟩

theorem decode_loop_value_witness :
    (∀ b ∈ [0, 0, 0x11, 0x22, 0x33, 0x44, 0xAA, 0xBB, 0xCC, 0xDD], b < 256) ∧
    decode_loop [0, 0, 0x11, 0x22, 0x33, 0x44, 0xAA, 0xBB, 0xCC, 0xDD] 7 2 0 2
        (fun _ => 0) (7 + 1) =
      [0, 0, 0x11, 0x22, 0x33, 0x44, 0xAA, 0xBB, 0xCC, 0xDD].getD (2 + 4 * 1 + 2) 0 <<< 24
        ||| [0, 0, 0x11, 0x22, 0x33, 0x44, 0xAA, 0xBB, 0xCC, 0xDD].getD (2 + 4 * 1 + 3) 0 <<< 16
        ||| [0, 0, 0x11, 0x22, 0x33, 0x44, 0xAA, 0xBB, 0xCC, 0xDD].getD (2 + 4 * 1) 0 <<< 8
        ||| [0, 0, 0x11, 0x22, 0x33, 0x44, 0xAA, 0xBB, 0xCC, 0xDD].getD (2 + 4 * 1 + 1) 0 ∧
    decode_loop [0, 0, 0x11, 0x22, 0x33, 0x44, 0xAA, 0xBB, 0xCC, 0xDD] 7 2 0 2
        (fun _ => 0) (7 + 1) < 2 ^ 32 :=
  ⟨by decide,
    decode_loop_value [0, 0, 0x11, 0x22, 0x33, 0x44, 0xAA, 0xBB, 0xCC, 0xDD] 7 2 1
      (fun _ => 0) (by decide) (by decide) (by decide) (by decide) (by decide)⟩

/-- C3 (amended): the four reply bytes 0x11, 0x22, 0x33, 0x44 of a word slot (after
the two status bytes) decode to 0x33441122, both as the value computed by the
assignments and as the element stored by the decode loop. -/
theorem decode_test_vector :
    decode_value [0, 0, 0x11, 0x22, 0x33, 0x44] 2 = 0x33441122 ∧
    decode_loop [0, 0, 0x11, 0x22, 0x33, 0x44] 0 1 0 2 (fun _ => 0) 0 = 0x33441122 := by
  constructor <;> decide

/-- C3 (as stated): the reply bytes 0x11, 0x22, 0x33, 0x44 do not decode to
0x44112233. -/
theorem decode_test_vector_refuted :
    ¬ (decode_value [0, 0, 0x11, 0x22, 0x33, 0x44] 2 = 0x44112233) ∧
    ¬ (decode_loop [0, 0, 0x11, 0x22, 0x33, 0x44] 0 1 0 2 (fun _ => 0) 0 = 0x44112233) := by
  constructor <;> decide

/-- C4: in a read of `count > 0` values that passes the checks, the first pass
starts with `offset = 0` and `todo = count`; every pass starts with
`offset + todo = count`, takes `chunk_length / 2 ≤ todo` values, and the
values of `offset` and `todo` computed at its end again add up to `count`;
the next pass starts with `offset` advanced and `todo` reduced by exactly
`chunk_length / 2`; after a successful return the word counts of all passes
add up to `count`; and with a transport that answers every request with
success and a reply of the expected length the read returns with success. -/
theorem read_uint32_loop_invariant (env : Env) (fuel : Nat) (s : fins_sys_tp)
    (text : String) (d : Nat → Nat) (count : Nat) (address : fins_address_tp)
    (area : fins_area_tp)
    (hc : 0 < count) (hcs : count < SIZE_MOD) (hsock : s.sockfd ≠ env.INVALID_SOCKET)
    (haddr : env.XX_finslib_decode_address text = some address)
    (harea : env.XX_finslib_search_area s address 16 env.FI_RD false = some area) :
    (0 < fuel → ∃ p rest,
      (finslib_memory_area_read_uint32 env fuel (some s) (some text) (some d)
        count).iterations = p :: rest ∧ p.offset = 0 ∧ p.todo = count) ∧
    (∀ p ∈ (finslib_memory_area_read_uint32 env fuel (some s) (some text) (some d)
        count).iterations,
      p.offset + p.todo = count ∧ p.chunk_length / 2 ≤ p.todo ∧
      (p.offset + p.chunk_length / 2) % SIZE_MOD
        + (p.todo + (SIZE_MOD - (p.chunk_length / 2) % SIZE_MOD)) % SIZE_MOD = count) ∧
    (∀ k p q,
      (finslib_memory_area_read_uint32 env fuel (some s) (some text) (some d)
        count).iterations[k]? = some p →
      (finslib_memory_area_read_uint32 env fuel (some s) (some text) (some d)
        count).iterations[k + 1]? = some q →
      q.offset = p.offset + p.chunk_length / 2 ∧ q.todo = p.todo - p.chunk_length / 2) ∧
    ((finslib_memory_area_read_uint32 env fuel (some s) (some text) (some d) count).retval
        = some FINS_RETVAL_SUCCESS →
      ((finslib_memory_area_read_uint32 env fuel (some s) (some text) (some d)
        count).iterations.map (fun p => p.chunk_length / 2)).sum = count) ∧
    (2 ≤ env.FINS_MAX_READ_WORDS_SYSWAY → env.FINS_MAX_READ_WORDS_SYSWAY < 2 ^ 32 →
      (∀ k chunk_start chunk_length, chunk_length ≤ env.FINS_MAX_READ_WORDS_SYSWAY →
        (env.XX_finslib_communicate s k (request_body area chunk_start chunk_length) 6
          true).1 = FINS_RETVAL_SUCCESS ∧
        (env.XX_finslib_communicate s k (request_body area chunk_start chunk_length) 6
          true).2.length = 2 + 2 * chunk_length) →
      count * 2 < SIZE_MOD → count ≤ fuel →
      (finslib_memory_area_read_uint32 env fuel (some s) (some text) (some d) count).retval
        = some FINS_RETVAL_SUCCESS) := by
  have hv := read_uint32_valid env fuel s text d count address area (by omega) hsock haddr
    harea
  obtain ⟨_, _, g3, g4, g5⟩ := read_loop_log env s area fuel 0
    (initial_chunk_start address area) 0 count d hcs (by omega)
  refine ⟨?_, ?_, ?_, ?_, ?_⟩
  · intro hf
    obtain ⟨rest, tail, h1, _⟩ := read_loop_head env s area fuel 0
      (initial_chunk_start address area) 0 count d hf
    rw [hv]
    exact ⟨_, rest, h1, rfl, rfl⟩
  · rw [hv]
    intro p hp
    obtain ⟨a1, a2, a3⟩ := g4 p hp
    rw [Nat.zero_add] at a1
    have hstep := todo_step env p.todo (by omega)
    rw [← a2] at hstep
    rw [hstep, Nat.mod_eq_of_lt (by omega)]
    exact ⟨a1, a3, by omega⟩
  · rw [hv]
    intro k p q hp hq
    exact (chain_getElem next_pass _ g3 k p q hp hq).2
  · rw [hv]
    exact g5
  · intro hM2 hM hgood hsmall hf
    exact read_uint32_total env fuel s text d count address area hM2 hM hc hsmall hf hsock
      haddr harea hgood

set_option maxRecDepth 100000 in
theorem read_uint32_loop_invariant_witness :
    (finslib_memory_area_read_uint32 (sample_env 4) 3 (some ⟨5⟩) (some "D100")
      (some (fun _ => 0)) 3).retval = some FINS_RETVAL_SUCCESS ∧
    ((finslib_memory_area_read_uint32 (sample_env 4) 3 (some ⟨5⟩) (some "D100")
      (some (fun _ => 0)) 3).iterations.map (fun p => p.chunk_length / 2)).sum = 3 ∧
    (∀ p ∈ (finslib_memory_area_read_uint32 (sample_env 4) 3 (some ⟨5⟩) (some "D100")
        (some (fun _ => 0)) 3).iterations,
      p.offset + p.todo = 3 ∧ p.chunk_length / 2 ≤ p.todo ∧
      (p.offset + p.chunk_length / 2) % SIZE_MOD
        + (p.todo + (SIZE_MOD - (p.chunk_length / 2) % SIZE_MOD)) % SIZE_MOD = 3) :=
  ⟨(read_uint32_loop_invariant (sample_env 4) 3 ⟨5⟩ "D100" (fun _ => 0) 3 ⟨0x82, 100⟩
      ⟨0x82, 0, 0⟩ (by decide) (by decide) (by decide) (by decide) (by decide)).2.2.2.2
        (by decide) (by decide)
        (fun k cs cl h => sample_env_good 4 ⟨5⟩ ⟨0x82, 0, 0⟩ k cs cl
          (Nat.lt_of_le_of_lt h (by decide)))
        (by decide) (by decide),
    (read_uint32_loop_invariant (sample_env 4) 3 ⟨5⟩ "D100" (fun _ => 0) 3 ⟨0x82, 100⟩
      ⟨0x82, 0, 0⟩ (by decide) (by decide) (by decide) (by decide) (by decide)).2.2.2.1
      (by decide),
    (read_uint32_loop_invariant (sample_env 4) 3 ⟨5⟩ "D100" (fun _ => 0) 3 ⟨0x82, 100⟩
      ⟨0x82, 0, 0⟩ (by decide) (by decide) (by decide) (by decide) (by decide)).2.1⟩

set_option maxRecDepth 1000000 in
/-- C5 (as stated): in a read of 135 values with a maximum of 269 units the two
requests carry the wire addresses 100 and 368, while `offset` goes from 0 to
134: the address advances by 268, twice the number of values. -/
theorem address_advance_refuted :
    (finslib_memory_area_read_uint32 (sample_env 269) 2 (some ⟨5⟩) (some "D100")
      (some (fun _ => 0)) 135).retval = some FINS_RETVAL_SUCCESS ∧
    (finslib_memory_area_read_uint32 (sample_env 269) 2 (some ⟨5⟩) (some "D100")
      (some (fun _ => 0)) 135).trace =
        [Event.decode_address "D100", Event.search_area ⟨5⟩ ⟨0x82, 100⟩ 16 1 false,
          Event.init_command 1 1, Event.communicate [0x82, 0, 100, 0, 1, 12] 6 true,
          Event.init_command 1 1, Event.communicate [0x82, 1, 112, 0, 0, 2] 6 true] ∧
    (finslib_memory_area_read_uint32 (sample_env 269) 2 (some ⟨5⟩) (some "D100")
      (some (fun _ => 0)) 135).iterations.map (fun p => (p.chunk_start, p.offset)) =
        [(100, 0), (368, 134)] ∧
    ¬ (368 = 100 + (134 - 0)) := by
  refine ⟨?_, ?_, ?_, ?_⟩ <;> decide

/-- C5 (amended): from one pass to the next the wire address advances by the chunk
length in 16-bit units (in `size_t` arithmetic), which is twice the number of
32-bit values by which `offset` advances; the requests of the trace carry
these addresses. -/
theorem read_uint32_address_advance (env : Env) (fuel : Nat) (s : fins_sys_tp)
    (text : String) (d : Nat → Nat) (count : Nat) (address : fins_address_tp)
    (area : fins_area_tp)
    (hc : 0 < count) (hcs : count < SIZE_MOD) (hsock : s.sockfd ≠ env.INVALID_SOCKET)
    (haddr : env.XX_finslib_decode_address text = some address)
    (harea : env.XX_finslib_search_area s address 16 env.FI_RD false = some area) :
    (∀ k p q,
      (finslib_memory_area_read_uint32 env fuel (some s) (some text) (some d)
        count).iterations[k]? = some p →
      (finslib_memory_area_read_uint32 env fuel (some s) (some text) (some d)
        count).iterations[k + 1]? = some q →
      q.chunk_start = (p.chunk_start + p.chunk_length) % SIZE_MOD ∧
      q.offset = p.offset + p.chunk_length / 2 ∧
      p.chunk_length = 2 * (p.chunk_length / 2)) ∧
    (finslib_memory_area_read_uint32 env fuel (some s) (some text) (some d) count).trace =
      [Event.decode_address text, Event.search_area s address 16 env.FI_RD false] ++
        (finslib_memory_area_read_uint32 env fuel (some s) (some text) (some d)
          count).iterations.flatMap (fun p =>
            [Event.init_command 0x01 0x01,
              Event.communicate (request_body area p.chunk_start p.chunk_length) 6 true]) := by
  rw [read_uint32_valid env fuel s text d count address area (by omega) hsock haddr harea]
  obtain ⟨_, g2, g3, g4, _⟩ := read_loop_log env s area fuel 0
    (initial_chunk_start address area) 0 count d hcs (by omega)
  constructor
  · intro k p q hp hq
    obtain ⟨c1, c2, _⟩ := chain_getElem next_pass _ g3 k p q hp hq
    obtain ⟨_, a2, _⟩ := g4 p (List.getElem?_mem hp)
    have hev := next_chunk_length_even env p.todo
    rw [← a2] at hev
    exact ⟨c1, c2, by omega⟩
  · show lookup_events env s text address ++ _ = _
    rw [g2]
    rfl

set_option maxRecDepth 100000 in
theorem read_uint32_address_advance_witness :
    (finslib_memory_area_read_uint32 (sample_env 4) 2 (some ⟨5⟩) (some "D100")
      (some (fun _ => 0)) 3).iterations.map (fun p => (p.chunk_start, p.chunk_length, p.offset))
      = [(100, 4, 0), (104, 2, 2)] ∧
    (finslib_memory_area_read_uint32 (sample_env 4) 2 (some ⟨5⟩) (some "D100")
        (some (fun _ => 0)) 3).trace =
      [Event.decode_address "D100", Event.search_area ⟨5⟩ ⟨0x82, 100⟩ 16 1 false] ++
        (finslib_memory_area_read_uint32 (sample_env 4) 2 (some ⟨5⟩) (some "D100")
          (some (fun _ => 0)) 3).iterations.flatMap (fun p =>
            [Event.init_command 0x01 0x01,
              Event.communicate (request_body ⟨0x82, 0, 0⟩ p.chunk_start p.chunk_length)
                6 true]) :=
  ⟨by decide,
    (read_uint32_address_advance (sample_env 4) 2 ⟨5⟩ "D100" (fun _ => 0) 3 ⟨0x82, 100⟩
      ⟨0x82, 0, 0⟩ (by decide) (by decide) (by decide) (by decide) (by decide)).2⟩

/-- C6: every pass of a read initialises the command with the function codes
0x01, 0x01 and hands to the transport a body of six bytes: the area code, the
high and low byte of the wire address, 0x00, and the high and low byte of the
unit count, which is twice the number `chunk_length / 2` of 32-bit values
decoded in that pass. -/
theorem read_uint32_requests (env : Env) (fuel : Nat) (s : fins_sys_tp)
    (text : String) (d : Nat → Nat) (count : Nat) (address : fins_address_tp)
    (area : fins_area_tp)
    (hc : 0 < count) (hcs : count < SIZE_MOD) (hsock : s.sockfd ≠ env.INVALID_SOCKET)
    (haddr : env.XX_finslib_decode_address text = some address)
    (harea : env.XX_finslib_search_area s address 16 env.FI_RD false = some area)
    (hcode : area.area < 256) :
    (finslib_memory_area_read_uint32 env fuel (some s) (some text) (some d) count).trace =
      [Event.decode_address text, Event.search_area s address 16 env.FI_RD false] ++
        (finslib_memory_area_read_uint32 env fuel (some s) (some text) (some d)
          count).iterations.flatMap (fun p =>
            [Event.init_command 0x01 0x01,
              Event.communicate
                [area.area, (p.chunk_start >>> 8) &&& 0xFF, p.chunk_start &&& 0xFF, 0x00,
                  ((p.chunk_length / 2 * 2) >>> 8) &&& 0xFF,
                  (p.chunk_length / 2 * 2) &&& 0xFF]
                6 true]) ∧
    ∀ body bodylen wait,
      Event.communicate body bodylen wait ∈
        (finslib_memory_area_read_uint32 env fuel (some s) (some text) (some d)
          count).trace →
      body.length = 6 ∧ bodylen = 6 ∧ wait = true := by
  rw [read_uint32_valid env fuel s text d count address area (by omega) hsock haddr harea]
  obtain ⟨_, g2, _, g4, _⟩ := read_loop_log env s area fuel 0
    (initial_chunk_start address area) 0 count d hcs (by omega)
  have htrace : lookup_events env s text address ++
        (read_loop env s area fuel 0 (initial_chunk_start address area) 0 count d).trace =
      [Event.decode_address text, Event.search_area s address 16 env.FI_RD false] ++
        (read_loop env s area fuel 0 (initial_chunk_start address area) 0 count
          d).iterations.flatMap (fun p =>
            [Event.init_command 0x01 0x01,
              Event.communicate
                [area.area, (p.chunk_start >>> 8) &&& 0xFF, p.chunk_start &&& 0xFF, 0x00,
                  ((p.chunk_length / 2 * 2) >>> 8) &&& 0xFF,
                  (p.chunk_length / 2 * 2) &&& 0xFF]
                6 true]) := by
    rw [g2]
    show _ ++ _ = _ ++ _
    congr 1
    apply flatMap_congr_mem
    intro p hp
    obtain ⟨_, a2, _⟩ := g4 p hp
    have hev := next_chunk_length_even env p.todo
    rw [← a2] at hev
    have h2 : p.chunk_length / 2 * 2 = p.chunk_length := by omega
    rw [h2]
    simp only [pass_events, request_body, Nat.mod_eq_of_lt hcode]
  refine ⟨htrace, ?_⟩
  intro body bodylen wait hmem
  have hmem' : Event.communicate body bodylen wait ∈
      lookup_events env s text address ++
        (read_loop env s area fuel 0 (initial_chunk_start address area) 0 count d).trace :=
    hmem
  rw [htrace] at hmem'
  simp only [List.mem_append, List.mem_cons, List.mem_flatMap, List.mem_singleton,
    List.not_mem_nil, or_false, false_or, reduceCtorEq, Event.communicate.injEq] at hmem'
  obtain ⟨p, _, hb, hl, hw⟩ := hmem'
  subst hb
  exact ⟨rfl, hl, hw⟩

set_option maxRecDepth 100000 in
theorem read_uint32_requests_witness :
    (finslib_memory_area_read_uint32 (sample_env 4) 2 (some ⟨5⟩) (some "A500")
      (some (fun _ => 0)) 3).trace =
      [Event.decode_address "A500", Event.search_area ⟨5⟩ ⟨0xB3, 500⟩ 16 1 false,
        Event.init_command 1 1, Event.communicate [0xB3, 1, 244, 0, 0, 4] 6 true,
        Event.init_command 1 1, Event.communicate [0xB3, 1, 248, 0, 0, 2] 6 true] ∧
    ∀ body bodylen wait,
      Event.communicate body bodylen wait ∈
        (finslib_memory_area_read_uint32 (sample_env 4) 2 (some ⟨5⟩) (some "A500")
          (some (fun _ => 0)) 3).trace →
      body.length = 6 ∧ bodylen = 6 ∧ wait = true :=
  ⟨by decide,
    (read_uint32_requests (sample_env 4) 2 ⟨5⟩ "A500" (fun _ => 0) 3 ⟨0xB3, 500⟩
      ⟨0xB3, 448, 0x01C000⟩ (by decide) (by decide) (by decide) (by decide) (by decide)
      (by decide)).2⟩

/-- C7: the wire address of the first request is
`main_address + (low_addr >> 8) - low_id` in `size_t` arithmetic, that is
modulo `2^64`; the request carries its two low bytes. -/
theorem read_uint32_first_address (env : Env) (fuel : Nat) (s : fins_sys_tp) (text : String)
    (d : Nat → Nat) (count : Nat) (address : fins_address_tp) (area : fins_area_tp)
    (hc : 0 < count) (hf : 0 < fuel) (hsock : s.sockfd ≠ env.INVALID_SOCKET)
    (haddr : env.XX_finslib_decode_address text = some address)
    (harea : env.XX_finslib_search_area s address 16 env.FI_RD false = some area) :
    ∃ p rest tail,
      (finslib_memory_area_read_uint32 env fuel (some s) (some text) (some d)
        count).iterations = p :: rest ∧
      (p.chunk_start : Int) =
        ((address.main_address : Int) + ((area.low_addr >>> 8 : Nat) : Int)
          - (area.low_id : Int)) % 2 ^ 64 ∧
      (finslib_memory_area_read_uint32 env fuel (some s) (some text) (some d) count).trace =
        [Event.decode_address text, Event.search_area s address 16 env.FI_RD false,
          Event.init_command 0x01 0x01,
          Event.communicate
            [area.area % 256, (p.chunk_start >>> 8) &&& 0xff, p.chunk_start &&& 0xff, 0x00,
              (p.chunk_length >>> 8) &&& 0xff, p.chunk_length &&& 0xff] 6 true] ++ tail := by
  rw [read_uint32_valid env fuel s text d count address area (by omega) hsock haddr harea]
  obtain ⟨rest, tail, h1, h2⟩ := read_loop_head env s area fuel 0
    (initial_chunk_start address area) 0 count d hf
  refine ⟨_, rest, tail, h1, initial_chunk_start_eq address area, ?_⟩
  show lookup_events env s text address ++ _ = _
  rw [h2]
  rfl

set_option maxRecDepth 100000 in
theorem read_uint32_first_address_witness :
    ∃ p rest tail,
      (finslib_memory_area_read_uint32 (sample_env 4) 2 (some ⟨5⟩) (some "A500")
        (some (fun _ => 0)) 3).iterations = p :: rest ∧
      (p.chunk_start : Int) =
        ((500 : Nat) + ((0x01C000 >>> 8 : Nat) : Int) - (448 : Nat)) % 2 ^ 64 ∧
      (finslib_memory_area_read_uint32 (sample_env 4) 2 (some ⟨5⟩) (some "A500")
        (some (fun _ => 0)) 3).trace =
        [Event.decode_address "A500", Event.search_area ⟨5⟩ ⟨0xB3, 500⟩ 16 1 false,
          Event.init_command 0x01 0x01,
          Event.communicate
            [0xB3 % 256, (p.chunk_start >>> 8) &&& 0xff, p.chunk_start &&& 0xff, 0x00,
              (p.chunk_length >>> 8) &&& 0xff, p.chunk_length &&& 0xff] 6 true] ++ tail :=
  read_uint32_first_address (sample_env 4) 2 ⟨5⟩ "A500" (fun _ => 0) 3 ⟨0xB3, 500⟩
    ⟨0xB3, 448, 0x01C000⟩ (by decide) (by decide) (by decide) (by decide) (by decide)

/-- C8: a call with count 0 returns success, calls no collaborator, runs no loop
pass and leaves the destination as it is, whatever the other arguments are. -/
theorem read_uint32_zero_count (env : Env) (fuel : Nat) (sys : Option fins_sys_tp)
    (start : Option String) (data : Option (Nat → Nat)) :
    finslib_memory_area_read_uint32 env fuel sys start data 0 =
      ⟨some FINS_RETVAL_SUCCESS, data, [], []⟩ := by
  simp [finslib_memory_area_read_uint32]

/-- C9: with count > 0 the checks are made in a fixed order and the first one that
fails decides the result: absent context, absent address text, absent
destination, invalid socket (none of these four calls a collaborator), then
a failing address decoder (only the decoder was called), then an area lookup
without result (decoder and lookup were called).  No failure runs a loop pass
or changes the destination. -/
theorem read_uint32_validation_order (env : Env) (fuel count : Nat) (hc : 0 < count) :
    (∀ start data, finslib_memory_area_read_uint32 env fuel none start data count =
      ⟨some FINS_RETVAL_NOT_INITIALIZED, data, [], []⟩) ∧
    (∀ s data, finslib_memory_area_read_uint32 env fuel (some s) none data count =
      ⟨some FINS_RETVAL_NO_READ_ADDRESS, data, [], []⟩) ∧
    (∀ s text, finslib_memory_area_read_uint32 env fuel (some s) (some text) none count =
      ⟨some FINS_RETVAL_NO_DATA_BLOCK, none, [], []⟩) ∧
    (∀ s text d, s.sockfd = env.INVALID_SOCKET →
      finslib_memory_area_read_uint32 env fuel (some s) (some text) (some d) count =
        ⟨some FINS_RETVAL_NOT_CONNECTED, some d, [], []⟩) ∧
    (∀ s text d, s.sockfd ≠ env.INVALID_SOCKET →
      env.XX_finslib_decode_address text = none →
      finslib_memory_area_read_uint32 env fuel (some s) (some text) (some d) count =
        ⟨some FINS_RETVAL_INVALID_READ_ADDRESS, some d, [Event.decode_address text], []⟩) ∧
    (∀ s text d address, s.sockfd ≠ env.INVALID_SOCKET →
      env.XX_finslib_decode_address text = some address →
      env.XX_finslib_search_area s address 16 env.FI_RD false = none →
      finslib_memory_area_read_uint32 env fuel (some s) (some text) (some d) count =
        ⟨some FINS_RETVAL_INVALID_READ_AREA, some d,
          [Event.decode_address text, Event.search_area s address 16 env.FI_RD false],
          []⟩) := by
  have hc0 : count ≠ 0 := by omega
  refine ⟨?_, ?_, ?_, ?_, ?_, ?_⟩
  · intro start data
    simp [finslib_memory_area_read_uint32, hc0]
  · intro s data
    simp [finslib_memory_area_read_uint32, hc0]
  · intro s text
    simp [finslib_memory_area_read_uint32, hc0]
  · intro s text d hs
    simp [finslib_memory_area_read_uint32, hc0, hs]
  · intro s text d hs hd
    simp [finslib_memory_area_read_uint32, hc0, hs, hd]
  · intro s text d address hs hd ha
    simp [finslib_memory_area_read_uint32, hc0, hs, hd, ha]

theorem read_uint32_validation_order_witness :
    0 < 2 ∧
    finslib_memory_area_read_uint32 (sample_env 269) 1 none none none 2 =
      ⟨some FINS_RETVAL_NOT_INITIALIZED, none, [], []⟩ ∧
    finslib_memory_area_read_uint32 (sample_env 269) 1 (some ⟨-1⟩) none none 2 =
      ⟨some FINS_RETVAL_NO_READ_ADDRESS, none, [], []⟩ ∧
    finslib_memory_area_read_uint32 (sample_env 269) 1 (some ⟨-1⟩) (some "X") none 2 =
      ⟨some FINS_RETVAL_NO_DATA_BLOCK, none, [], []⟩ ∧
    finslib_memory_area_read_uint32 (sample_env 269) 1 (some ⟨-1⟩) (some "X")
        (some (fun _ => 7)) 2 =
      ⟨some FINS_RETVAL_NOT_CONNECTED, some (fun _ => 7), [], []⟩ ∧
    finslib_memory_area_read_uint32 (sample_env 269) 1 (some ⟨5⟩) (some "X")
        (some (fun _ => 7)) 2 =
      ⟨some FINS_RETVAL_INVALID_READ_ADDRESS, some (fun _ => 7),
        [Event.decode_address "X"], []⟩ :=
  ⟨by decide,
    (read_uint32_validation_order (sample_env 269) 1 2 (by decide)).1 none none,
    (read_uint32_validation_order (sample_env 269) 1 2 (by decide)).2.1 ⟨-1⟩ none,
    (read_uint32_validation_order (sample_env 269) 1 2 (by decide)).2.2.1 ⟨-1⟩ "X",
    (read_uint32_validation_order (sample_env 269) 1 2 (by decide)).2.2.2.1 ⟨-1⟩ "X"
      (fun _ => 7) (by decide),
    (read_uint32_validation_order (sample_env 269) 1 2 (by decide)).2.2.2.2.1 ⟨5⟩ "X"
      (fun _ => 7) (by decide) (by decide)⟩

/-- C10 (as stated): a present but empty address text with a live connection and a
destination is handed to the decoder, and the result is the decoder's
failure code, not the missing-address code. -/
theorem empty_address_text_refuted :
    (finslib_memory_area_read_uint32 (sample_env 269) 1 (some ⟨5⟩) (some "")
        (some (fun _ => 0)) 1).retval = some FINS_RETVAL_INVALID_READ_ADDRESS ∧
    (finslib_memory_area_read_uint32 (sample_env 269) 1 (some ⟨5⟩) (some "")
        (some (fun _ => 0)) 1).trace = [Event.decode_address ""] ∧
    (finslib_memory_area_read_uint32 (sample_env 269) 1 (some ⟨5⟩) (some "")
        (some (fun _ => 0)) 1).retval ≠ some FINS_RETVAL_NO_READ_ADDRESS := by
  refine ⟨?_, ?_, ?_⟩ <;> decide

/-- C10 (amended): with count > 0 and a context, an absent address text gives the
missing-address code without any collaborator call, whatever the destination
and the socket are; a present text, the empty one included, passes this
check, and with a destination and a live socket it goes to the decoder, whose
failure gives the invalid-address code. -/
theorem read_uint32_address_text (env : Env) (fuel count : Nat) (hc : 0 < count) :
    (∀ s data, finslib_memory_area_read_uint32 env fuel (some s) none data count =
      ⟨some FINS_RETVAL_NO_READ_ADDRESS, data, [], []⟩) ∧
    (∀ s text d, s.sockfd ≠ env.INVALID_SOCKET →
      env.XX_finslib_decode_address text = none →
      finslib_memory_area_read_uint32 env fuel (some s) (some text) (some d) count =
        ⟨some FINS_RETVAL_INVALID_READ_ADDRESS, some d, [Event.decode_address text], []⟩) := by
  have hc0 : count ≠ 0 := by omega
  constructor
  · intro s data
    simp [finslib_memory_area_read_uint32, hc0]
  · intro s text d hs hd
    simp [finslib_memory_area_read_uint32, hc0, hs, hd]

theorem read_uint32_address_text_witness :
    0 < 1 ∧
    finslib_memory_area_read_uint32 (sample_env 269) 1 (some ⟨5⟩) none none 1 =
      ⟨some FINS_RETVAL_NO_READ_ADDRESS, none, [], []⟩ ∧
    finslib_memory_area_read_uint32 (sample_env 269) 1 (some ⟨5⟩) (some "")
        (some (fun _ => 0)) 1 =
      ⟨some FINS_RETVAL_INVALID_READ_ADDRESS, some (fun _ => 0),
        [Event.decode_address ""], []⟩ :=
  ⟨by decide,
    (read_uint32_address_text (sample_env 269) 1 1 (by decide)).1 ⟨5⟩ none,
    (read_uint32_address_text (sample_env 269) 1 1 (by decide)).2 ⟨5⟩ "" (fun _ => 0)
      (by decide) (by decide)⟩

/-! ## Further facts about the chunk loop -/

theorem read_loop_nil (env : Env) (sys : fins_sys_tp) (area : fins_area_tp)
    (fuel calls chunk_start offset todo : Nat) (data : Nat → Nat)
    (h : (read_loop env sys area fuel calls chunk_start offset todo data).iterations = []) :
    fuel = 0 := by
  by_contra hf
  obtain ⟨rest, tail, h1, _⟩ := read_loop_head env sys area fuel calls chunk_start offset todo
    data (by omega)
  rw [h] at h1
  exact List.noConfusion h1

/-- How a pass decides the course of the run: a transport error or a reply of the
wrong length ends the run with that code, a chunk that takes the last values
ends it with success, and otherwise the next pass follows, as far as the
bound on the passes allows. -/
theorem read_loop_pass (env : Env) (sys : fins_sys_tp) (area : fins_area_tp) :
    ∀ (fuel calls chunk_start offset todo : Nat) (data : Nat → Nat),
      todo < SIZE_MOD → offset + todo < SIZE_MOD →
      ∀ (k : Nat) (p : Iteration),
        (read_loop env sys area fuel calls chunk_start offset todo data).iterations[k]?
          = some p →
        k < fuel ∧
        (p.retval ≠ FINS_RETVAL_SUCCESS →
          (read_loop env sys area fuel calls chunk_start offset todo data).retval
            = some p.retval ∧
          (read_loop env sys area fuel calls chunk_start offset todo data).iterations.length
            = k + 1) ∧
        (p.retval = FINS_RETVAL_SUCCESS → p.reply.length ≠ 2 + 2 * p.chunk_length →
          (read_loop env sys area fuel calls chunk_start offset todo data).retval
            = some FINS_RETVAL_BODY_TOO_SHORT ∧
          (read_loop env sys area fuel calls chunk_start offset todo data).iterations.length
            = k + 1) ∧
        (p.retval = FINS_RETVAL_SUCCESS → p.reply.length = 2 + 2 * p.chunk_length →
          p.todo = p.chunk_length / 2 →
          (read_loop env sys area fuel calls chunk_start offset todo data).retval
            = some FINS_RETVAL_SUCCESS ∧
          (read_loop env sys area fuel calls chunk_start offset todo data).iterations.length
            = k + 1) ∧
        (p.retval = FINS_RETVAL_SUCCESS → p.reply.length = 2 + 2 * p.chunk_length →
          p.chunk_length / 2 < p.todo →
          (k + 1 < fuel →
            k + 1 < (read_loop env sys area fuel calls chunk_start offset todo
              data).iterations.length) ∧
          (k + 1 = fuel →
            (read_loop env sys area fuel calls chunk_start offset todo data).retval = none ∧
            (read_loop env sys area fuel calls chunk_start offset todo data).iterations.length
              = k + 1)) := by
  intro fuel
  induction fuel with
  | zero =>
    intro calls chunk_start offset todo data _ _ k p h
    simp [read_loop] at h
  | succ fuel ih =>
    intro calls chunk_start offset todo data ht ho k p hk
    have hstep := todo_step env todo ht
    have hlt := next_chunk_length_lt env todo
    have hle := next_chunk_length_half_le env todo
    have hS : SIZE_MOD = 2 ^ 64 := rfl
    have e : (pass_record env sys area calls chunk_start offset todo).chunk_length
        = next_chunk_length env todo := rfl
    have et : (pass_record env sys area calls chunk_start offset todo).todo = todo := rfl
    have hmod : (2 + 2 * next_chunk_length env todo) % SIZE_MOD
        = 2 + 2 * next_chunk_length env todo := Nat.mod_eq_of_lt (by omega)
    have single : ∀ (k : Nat) (p : Iteration),
        [pass_record env sys area calls chunk_start offset todo][k]? = some p →
        k = 0 ∧ p = pass_record env sys area calls chunk_start offset todo := by
      intro k p hk
      cases k with
      | zero =>
        simp only [List.getElem?_cons_zero, Option.some.injEq] at hk
        exact ⟨rfl, hk.symm⟩
      | succ k => simp at hk
    rcases read_loop_cases env sys area fuel calls chunk_start offset todo data with
      ⟨h1, hr⟩ | ⟨h1, h2, hr⟩ | ⟨h1, h2, h3, hr⟩ | ⟨h1, h2, h3, hr⟩
    · rw [hr] at hk ⊢
      obtain ⟨hk0, hp⟩ := single k p hk
      subst hk0 hp
      refine ⟨by omega, fun _ => ⟨rfl, rfl⟩, fun c => absurd c h1, fun c => absurd c h1,
        fun c => absurd c h1⟩
    · rw [hr] at hk ⊢
      obtain ⟨hk0, hp⟩ := single k p hk
      subst hk0 hp
      rw [e, hmod] at h2
      refine ⟨by omega, fun c => absurd h1 c, fun _ _ => ⟨rfl, rfl⟩,
        fun _ c => absurd c h2, fun _ c => absurd c h2⟩
    · rw [hr] at hk ⊢
      obtain ⟨hk0, hp⟩ := single k p hk
      subst hk0 hp
      rw [e, hstep] at h3
      refine ⟨by omega, fun c => absurd h1 c, fun _ c => ?_, fun _ _ _ => ⟨rfl, rfl⟩,
        fun _ _ c => ?_⟩
      · rw [e, hmod] at h2
        exact absurd h2 c
      · rw [e, et] at c
        omega
    · rw [e, hstep] at h3 hr
      rw [Nat.mod_eq_of_lt (by omega : offset + next_chunk_length env todo / 2 < SIZE_MOD)]
        at hr
      rw [hr] at hk ⊢
      cases k with
      | zero =>
        simp only [List.getElem?_cons_zero, Option.some.injEq] at hk
        subst hk
        refine ⟨by omega, fun c => absurd h1 c, fun _ c => ?_, fun _ _ c => ?_,
          fun _ _ _ => ⟨fun hf => ?_, fun hf => ?_⟩⟩
        · rw [e, hmod] at h2
          exact absurd h2 c
        · rw [e, et] at c
          omega
        · obtain ⟨rest, tail, g1, _⟩ := read_loop_head env sys area fuel (calls + 1)
            ((chunk_start + next_chunk_length env todo) % SIZE_MOD)
            (offset + next_chunk_length env todo / 2)
            (todo - next_chunk_length env todo / 2)
            (decode_loop (pass_record env sys area calls chunk_start offset todo).reply
              offset (next_chunk_length env todo / 2) 0 2 data) (by omega)
          show 0 + 1 < (_ :: _).length
          rw [g1]
          simp
        · have hf0 : fuel = 0 := by omega
          subst hf0
          exact ⟨rfl, rfl⟩
      | succ k =>
        simp only [List.getElem?_cons_succ] at hk
        obtain ⟨a0, a1, a2, a3, a4⟩ := ih _ _ _ _ _ (by omega) (by omega) k p hk
        refine ⟨by omega, fun c => ?_, fun c1 c2 => ?_, fun c1 c2 c3 => ?_,
          fun c1 c2 c3 => ⟨fun hf => ?_, fun hf => ?_⟩⟩
        · obtain ⟨b1, b2⟩ := a1 c
          exact ⟨b1, by simp [List.length_cons, b2]⟩
        · obtain ⟨b1, b2⟩ := a2 c1 c2
          exact ⟨b1, by simp [List.length_cons, b2]⟩
        · obtain ⟨b1, b2⟩ := a3 c1 c2 c3
          exact ⟨b1, by simp [List.length_cons, b2]⟩
        · have := (a4 c1 c2 c3).1 (by omega)
          simp only [List.length_cons]
          omega
        · obtain ⟨b1, b2⟩ := (a4 c1 c2 c3).2 (by omega)
          exact ⟨b1, by simp [List.length_cons, b2]⟩

/-- Whatever the course of the run, no element outside the range still to be read
is changed. -/
theorem read_loop_outside (env : Env) (sys : fins_sys_tp) (area : fins_area_tp) :
    ∀ (fuel calls chunk_start offset todo : Nat) (data : Nat → Nat),
      todo < SIZE_MOD → offset + todo < SIZE_MOD →
      ∀ i, ¬ (offset ≤ i ∧ i < offset + todo) →
        (read_loop env sys area fuel calls chunk_start offset todo data).data i = data i := by
  intro fuel
  induction fuel with
  | zero =>
    intro calls chunk_start offset todo data _ _ i _
    rfl
  | succ fuel ih =>
    intro calls chunk_start offset todo data ht ho i hi
    have hstep := todo_step env todo ht
    have hlt := next_chunk_length_lt env todo
    have hle := next_chunk_length_half_le env todo
    have hS : SIZE_MOD = 2 ^ 64 := rfl
    have e : (pass_record env sys area calls chunk_start offset todo).chunk_length
        = next_chunk_length env todo := rfl
    have hd : decode_loop (pass_record env sys area calls chunk_start offset todo).reply
        offset (next_chunk_length env todo / 2) 0 2 data i = data i := by
      rw [decode_loop_spec _ _ _ _ _ _ (by omega) (by omega), if_neg (by omega)]
    rcases read_loop_cases env sys area fuel calls chunk_start offset todo data with
      ⟨_, hr⟩ | ⟨_, _, hr⟩ | ⟨_, _, _, hr⟩ | ⟨_, _, h3, hr⟩
    · rw [hr]
    · rw [hr]
    · rw [hr, e]
      exact hd
    · rw [e, hstep] at h3 hr
      rw [Nat.mod_eq_of_lt (by omega : offset + next_chunk_length env todo / 2 < SIZE_MOD)]
        at hr
      rw [hr]
      show (read_loop _ _ _ _ _ _ _ _ _).data i = _
      rw [ih _ _ _ _ _ (by omega) (by omega) i (by omega)]
      exact hd

/-- The values of every completed chunk are in the destination at the end of the
observed run, at the offset of the chunk. -/
theorem read_loop_decoded (env : Env) (sys : fins_sys_tp) (area : fins_area_tp) :
    ∀ (fuel calls chunk_start offset todo : Nat) (data : Nat → Nat),
      todo < SIZE_MOD → offset + todo < SIZE_MOD →
      ∀ (k : Nat) (p : Iteration),
        (read_loop env sys area fuel calls chunk_start offset todo data).iterations[k]?
          = some p →
        p.retval = FINS_RETVAL_SUCCESS → p.reply.length = 2 + 2 * p.chunk_length →
        ∀ i, p.offset ≤ i → i < p.offset + p.chunk_length / 2 →
          (read_loop env sys area fuel calls chunk_start offset todo data).data i =
            decode_value p.reply (2 + 4 * (i - p.offset)) := by
  intro fuel
  induction fuel with
  | zero =>
    intro calls chunk_start offset todo data _ _ k p h
    simp [read_loop] at h
  | succ fuel ih =>
    intro calls chunk_start offset todo data ht ho k p hk hok hlen i hi1 hi2
    have hstep := todo_step env todo ht
    have hlt := next_chunk_length_lt env todo
    have hle := next_chunk_length_half_le env todo
    have hS : SIZE_MOD = 2 ^ 64 := rfl
    have e : (pass_record env sys area calls chunk_start offset todo).chunk_length
        = next_chunk_length env todo := rfl
    have eo : (pass_record env sys area calls chunk_start offset todo).offset = offset := rfl
    have hmod : (2 + 2 * next_chunk_length env todo) % SIZE_MOD
        = 2 + 2 * next_chunk_length env todo := Nat.mod_eq_of_lt (by omega)
    have hd : ∀ j, offset ≤ j → j < offset + next_chunk_length env todo / 2 →
        decode_loop (pass_record env sys area calls chunk_start offset todo).reply
          offset (next_chunk_length env todo / 2) 0 2 data j =
        decode_value (pass_record env sys area calls chunk_start offset todo).reply
          (2 + 4 * (j - offset)) := by
      intro j hj1 hj2
      rw [decode_loop_spec _ _ _ _ _ _ (by omega) (by omega), if_pos (by omega)]
      simp only [Nat.add_zero]
    have single : ∀ (k : Nat) (p : Iteration),
        [pass_record env sys area calls chunk_start offset todo][k]? = some p →
        p = pass_record env sys area calls chunk_start offset todo := by
      intro k p hk
      cases k with
      | zero =>
        simp only [List.getElem?_cons_zero, Option.some.injEq] at hk
        exact hk.symm
      | succ k => simp at hk
    rcases read_loop_cases env sys area fuel calls chunk_start offset todo data with
      ⟨h1, hr⟩ | ⟨_, h2, hr⟩ | ⟨_, _, _, hr⟩ | ⟨_, _, h3, hr⟩
    · rw [hr] at hk
      have hp := single k p hk
      subst hp
      exact absurd hok h1
    · rw [hr] at hk
      have hp := single k p hk
      subst hp
      rw [e, hmod] at h2
      rw [e] at hlen
      exact absurd hlen h2
    · rw [hr] at hk ⊢
      have hp := single k p hk
      subst hp
      rw [e, eo] at hi2 ⊢
      rw [eo] at hi1
      exact hd i hi1 hi2
    · rw [e, hstep] at h3 hr
      rw [Nat.mod_eq_of_lt (by omega : offset + next_chunk_length env todo / 2 < SIZE_MOD)]
        at hr
      rw [hr] at hk ⊢
      cases k with
      | zero =>
        simp only [List.getElem?_cons_zero, Option.some.injEq] at hk
        subst hk
        rw [e, eo] at hi2
        rw [eo] at hi1 ⊢
        show (read_loop _ _ _ _ _ _ _ _ _).data i = _
        rw [read_loop_outside env sys area fuel _ _ _ _ _ (by omega) (by omega) i (by omega)]
        exact hd i hi1 hi2
      | succ k =>
        simp only [List.getElem?_cons_succ] at hk
        exact ih _ _ _ _ _ (by omega) (by omega) k p hk hok hlen i hi1 hi2

/-- A run that ends with a code other than success ends in a pass that has not
written anything: the passes before it are completed and their chunks tile
the destination from `offset` up to the offset of the failing pass, and every
element from that offset on is unchanged. -/
theorem read_loop_failure (env : Env) (sys : fins_sys_tp) (area : fins_area_tp) :
    ∀ (fuel calls chunk_start offset todo : Nat) (data : Nat → Nat) (e : Retval),
      todo < SIZE_MOD → offset + todo < SIZE_MOD →
      (read_loop env sys area fuel calls chunk_start offset todo data).retval = some e →
      e ≠ FINS_RETVAL_SUCCESS →
      ∃ pre q,
        (read_loop env sys area fuel calls chunk_start offset todo data).iterations
          = pre ++ [q] ∧
        q.offset = offset + (pre.map (fun p => p.chunk_length / 2)).sum ∧
        (q.retval ≠ FINS_RETVAL_SUCCESS ∨ q.reply.length ≠ 2 + 2 * q.chunk_length) ∧
        (∀ p ∈ pre, p.retval = FINS_RETVAL_SUCCESS ∧ p.reply.length = 2 + 2 * p.chunk_length) ∧
        (∀ i, ¬ (offset ≤ i ∧ i < q.offset) →
          (read_loop env sys area fuel calls chunk_start offset todo data).data i = data i) ∧
        (∀ i, offset ≤ i → i < q.offset →
          ∃ (j : Nat) (p : Iteration), pre[j]? = some p ∧ p.offset ≤ i ∧ i < p.offset + p.chunk_length / 2 ∧
            (read_loop env sys area fuel calls chunk_start offset todo data).data i =
              decode_value p.reply (2 + 4 * (i - p.offset))) := by
  intro fuel
  induction fuel with
  | zero =>
    intro calls chunk_start offset todo data e _ _ h
    simp [read_loop] at h
  | succ fuel ih =>
    intro calls chunk_start offset todo data err ht ho hret herr
    have hstep := todo_step env todo ht
    have hlt := next_chunk_length_lt env todo
    have hle := next_chunk_length_half_le env todo
    have hS : SIZE_MOD = 2 ^ 64 := rfl
    have e : (pass_record env sys area calls chunk_start offset todo).chunk_length
        = next_chunk_length env todo := rfl
    have eo : (pass_record env sys area calls chunk_start offset todo).offset = offset := rfl
    have hmod : (2 + 2 * next_chunk_length env todo) % SIZE_MOD
        = 2 + 2 * next_chunk_length env todo := Nat.mod_eq_of_lt (by omega)
    have hd : ∀ j, decode_loop (pass_record env sys area calls chunk_start offset todo).reply
          offset (next_chunk_length env todo / 2) 0 2 data j =
        if offset ≤ j ∧ j < offset + next_chunk_length env todo / 2 then
          decode_value (pass_record env sys area calls chunk_start offset todo).reply
            (2 + 4 * (j - offset))
        else data j := by
      intro j
      rw [decode_loop_spec _ _ _ _ _ _ (by omega) (by omega)]
      simp only [Nat.add_zero]
    rcases read_loop_cases env sys area fuel calls chunk_start offset todo data with
      ⟨h1, hr⟩ | ⟨h1, h2, hr⟩ | ⟨_, _, _, hr⟩ | ⟨h1, h2, h3, hr⟩
    · rw [hr]
      refine ⟨[], _, rfl, by simp [eo], Or.inl h1, by simp, fun i _ => rfl, fun i hi1 hi2 => ?_⟩
      rw [eo] at hi2
      omega
    · rw [hr]
      rw [e, hmod] at h2
      refine ⟨[], _, rfl, by simp [eo], Or.inr h2, by simp, fun i _ => rfl,
        fun i hi1 hi2 => ?_⟩
      rw [eo] at hi2
      omega
    · rw [hr] at hret
      exact absurd (Option.some.inj hret).symm herr
    · rw [e, hmod] at h2
      rw [e, hstep] at h3 hr
      rw [Nat.mod_eq_of_lt (by omega : offset + next_chunk_length env todo / 2 < SIZE_MOD)]
        at hr
      rw [hr] at hret ⊢
      obtain ⟨pre, q, g1, g2, g3, g4, g5, g6⟩ :=
        ih _ _ _ _ _ err (by omega) (by omega) hret herr
      refine ⟨pass_record env sys area calls chunk_start offset todo :: pre, q, ?_, ?_, g3,
        ?_, ?_, ?_⟩
      · show _ :: _ = _
        rw [g1]
        rfl
      · rw [g2]
        simp only [List.map_cons, List.sum_cons, e]
        omega
      · intro p hp
        rcases List.mem_cons.mp hp with hp | hp
        · subst hp
          exact ⟨h1, h2⟩
        · exact g4 p hp
      · intro i hi
        show (read_loop _ _ _ _ _ _ _ _ _).data i = _
        rw [g5 i (by omega), hd i, if_neg (by omega)]
      · intro i hi1 hi2
        by_cases hin : i < offset + next_chunk_length env todo / 2
        · refine ⟨0, pass_record env sys area calls chunk_start offset todo,
            List.getElem?_cons_zero, by rw [eo]; exact hi1, by rw [eo, e]; exact hin, ?_⟩
          show (read_loop _ _ _ _ _ _ _ _ _).data i = _
          rw [g5 i (by omega), hd i, if_pos ⟨hi1, hin⟩, eo]
        · obtain ⟨j, p, b1, b2, b3, b4⟩ := g6 i (by omega) hi2
          exact ⟨j + 1, p, by rw [List.getElem?_cons_succ]; exact b1, b2, b3, b4⟩

/-- The trace of a loop run is made of the two calls of each of its passes. -/
theorem read_loop_trace (env : Env) (sys : fins_sys_tp) (area : fins_area_tp) :
    ∀ (fuel calls chunk_start offset todo : Nat) (data : Nat → Nat),
      (read_loop env sys area fuel calls chunk_start offset todo data).trace =
        (read_loop env sys area fuel calls chunk_start offset todo data).iterations.flatMap
          (pass_events area) := by
  intro fuel
  induction fuel with
  | zero =>
    intro calls chunk_start offset todo data
    rfl
  | succ fuel ih =>
    intro calls chunk_start offset todo data
    rcases read_loop_cases env sys area fuel calls chunk_start offset todo data with
      ⟨_, hr⟩ | ⟨_, _, hr⟩ | ⟨_, _, _, hr⟩ | ⟨_, _, _, hr⟩
    · rw [hr]; simp [List.flatMap]
    · rw [hr]; simp [List.flatMap]
    · rw [hr]; simp [List.flatMap]
    · rw [hr]
      show pass_events area _ ++ _ = _
      rw [ih]
      simp [List.flatMap]

theorem decode_value_lt (body : List Nat) (bodylen : Nat) :
    decode_value body bodylen < 2 ^ 32 := by
  unfold decode_value
  exact Nat.mod_lt _ (by decide)

theorem decode_loop_lt (body : List Nat) (offset : Nat) :
    ∀ (n a bodylen : Nat) (data : Nat → Nat), (∀ i, data i < 2 ^ 32) →
      ∀ i, decode_loop body offset n a bodylen data i < 2 ^ 32 := by
  intro n
  induction n with
  | zero =>
    intro a bodylen data h i
    exact h i
  | succ n ih =>
    intro a bodylen data h i
    rw [decode_loop]
    apply ih
    intro j
    unfold store
    split
    · exact decode_value_lt body bodylen
    · exact h j

/-- The destination holds 32-bit patterns after the run if it did before. -/
theorem read_loop_cells_lt (env : Env) (sys : fins_sys_tp) (area : fins_area_tp) :
    ∀ (fuel calls chunk_start offset todo : Nat) (data : Nat → Nat),
      (∀ i, data i < 2 ^ 32) →
      ∀ i, (read_loop env sys area fuel calls chunk_start offset todo data).data i < 2 ^ 32 := by
  intro fuel
  induction fuel with
  | zero =>
    intro calls chunk_start offset todo data h i
    exact h i
  | succ fuel ih =>
    intro calls chunk_start offset todo data h i
    rcases read_loop_cases env sys area fuel calls chunk_start offset todo data with
      ⟨_, hr⟩ | ⟨_, _, hr⟩ | ⟨_, _, _, hr⟩ | ⟨_, _, _, hr⟩
    · rw [hr]; exact h i
    · rw [hr]; exact h i
    · rw [hr]; exact decode_loop_lt _ _ _ _ _ _ h i
    · rw [hr]
      exact ih _ _ _ _ _ (decode_loop_lt _ _ _ _ _ _ h) i

/-- Within the bounds of the destination and of the reply body, the decode loop
makes no access outside. -/
theorem decode_loop_checked_eq (count : Nat) (body : List Nat) (offset : Nat)
    (hcount : count ≤ SIZE_MOD) (hbody : body.length < SIZE_MOD) :
    ∀ (n a bodylen : Nat) (data : Nat → Nat),
      offset + a + n ≤ count → bodylen + 4 * n ≤ body.length →
      decode_loop_checked count body offset n a bodylen data =
        some (decode_loop body offset n a bodylen data) := by
  intro n
  induction n with
  | zero =>
    intro a bodylen data _ _
    rfl
  | succ n ih =>
    intro a bodylen data h1 h2
    rw [decode_loop_checked, decode_loop]
    have e0 : (offset + a) % SIZE_MOD = offset + a := Nat.mod_eq_of_lt (by omega)
    have e1 : (bodylen + 0) % SIZE_MOD = bodylen + 0 := Nat.mod_eq_of_lt (by omega)
    have e2 : (bodylen + 1) % SIZE_MOD = bodylen + 1 := Nat.mod_eq_of_lt (by omega)
    have e3 : (bodylen + 2) % SIZE_MOD = bodylen + 2 := Nat.mod_eq_of_lt (by omega)
    have e4 : (bodylen + 3) % SIZE_MOD = bodylen + 3 := Nat.mod_eq_of_lt (by omega)
    have e5 : (bodylen + 4) % SIZE_MOD = bodylen + 4 := Nat.mod_eq_of_lt (by omega)
    rw [e0, e1, e2, e3, e4, e5, if_pos (by omega)]
    exact ih _ _ _ (by omega) (by omega)

/-! ## The synthetic reply -/

theorem reply_words_length (values : List Nat) :
    (reply_words values).length = 4 * values.length := by
  induction values with
  | nil => rfl
  | cons v vs ih =>
    simp only [reply_words, List.length_cons, ih]
    omega

theorem reply_words_byte (values : List Nat) : ∀ b ∈ reply_words values, b < 256 := by
  induction values with
  | nil => intro b hb; simp [reply_words] at hb
  | cons v vs ih =>
    intro b hb
    simp only [reply_words, List.mem_cons] at hb
    rcases hb with h | h | h | h | h
    · rw [h, land_ff_eq]; omega
    · rw [h, land_ff_eq]; omega
    · rw [h, land_ff_eq]; omega
    · rw [h, land_ff_eq]; omega
    · exact ih b h

/-- The four bytes of value number `i` sit at position `4 * i` of the byte list. -/
theorem reply_words_getD : ∀ (values : List Nat) (i : Nat), i < values.length →
    (reply_words values).getD (4 * i) 0 = (values.getD i 0 >>> 8) &&& 0xFF ∧
    (reply_words values).getD (4 * i + 1) 0 = values.getD i 0 &&& 0xFF ∧
    (reply_words values).getD (4 * i + 2) 0 = (values.getD i 0 >>> 24) &&& 0xFF ∧
    (reply_words values).getD (4 * i + 3) 0 = (values.getD i 0 >>> 16) &&& 0xFF := by
  intro values
  induction values with
  | nil => intro i hi; simp at hi
  | cons v vs ih =>
    intro i hi
    cases i with
    | zero => exact ⟨rfl, rfl, rfl, rfl⟩
    | succ i =>
      have h := ih i (by simpa using hi)
      have e0 : 4 * (i + 1) = 4 * i + 1 + 1 + 1 + 1 := by omega
      have e1 : 4 * (i + 1) + 1 = 4 * i + 1 + 1 + 1 + 1 + 1 := by omega
      have e2 : 4 * (i + 1) + 2 = 4 * i + 2 + 1 + 1 + 1 + 1 := by omega
      have e3 : 4 * (i + 1) + 3 = 4 * i + 3 + 1 + 1 + 1 + 1 := by omega
      rw [e1, e2, e3, e0]
      simp only [reply_words, List.getD_cons_succ]
      exact h

/-- The bytes of a 32-bit value, taken in the order of the decoder, give the value
back. -/
theorem decode_synthetic (values : List Nat) (status0 status1 : Nat)
    (hs0 : status0 < 256) (hs1 : status1 < 256) (hv : ∀ v ∈ values, v < 2 ^ 32)
    (hlen : values.length < 2 ^ 32) (i : Nat) (hi : i < values.length) :
    decode_value (synthetic_reply status0 status1 values) (2 + 4 * i) = values.getD i 0 := by
  have hbytes : ∀ b ∈ synthetic_reply status0 status1 values, b < 256 := by
    intro b hb
    simp only [synthetic_reply, List.mem_cons] at hb
    rcases hb with h | h | h
    · omega
    · omega
    · exact reply_words_byte values b h
  have hvi : values.getD i 0 < 2 ^ 32 := by
    rw [List.getD_eq_getElem _ _ hi]
    exact hv _ (List.getElem_mem _)
  rw [decode_value_eq _ _ (by unfold SIZE_MOD; omega) hbytes]
  obtain ⟨g0, g1, g2, g3⟩ := reply_words_getD values i hi
  have s0 : (synthetic_reply status0 status1 values).getD (2 + 4 * i) 0
      = (reply_words values).getD (4 * i) 0 := by
    have : 2 + 4 * i = 4 * i + 1 + 1 := by omega
    rw [this]; rfl
  have s1 : (synthetic_reply status0 status1 values).getD (2 + 4 * i + 1) 0
      = (reply_words values).getD (4 * i + 1) 0 := by
    have : 2 + 4 * i + 1 = 4 * i + 1 + 1 + 1 := by omega
    rw [this]; rfl
  have s2 : (synthetic_reply status0 status1 values).getD (2 + 4 * i + 2) 0
      = (reply_words values).getD (4 * i + 2) 0 := by
    have : 2 + 4 * i + 2 = 4 * i + 2 + 1 + 1 := by omega
    rw [this]; rfl
  have s3 : (synthetic_reply status0 status1 values).getD (2 + 4 * i + 3) 0
      = (reply_words values).getD (4 * i + 3) 0 := by
    have : 2 + 4 * i + 3 = 4 * i + 3 + 1 + 1 := by omega
    rw [this]; rfl
  rw [s0, s1, s2, s3, g0, g1, g2, g3]
  simp only [land_ff_eq, Nat.shiftRight_eq_div_pow]
  omega

/-! ## Further facts about lists and the signed view -/

theorem list_last_split {α : Type} : ∀ (l : List α) (k : Nat) (p : α),
    l[k]? = some p → l.length = k + 1 → l = l.take k ++ [p] := by
  intro l
  induction l with
  | nil => intro k p h; simp at h
  | cons x xs ih =>
    intro k p h hl
    cases k with
    | zero =>
      simp only [List.getElem?_cons_zero, Option.some.injEq] at h
      simp only [List.length_cons, Nat.zero_add, Nat.add_left_eq_self,
        List.length_eq_zero] at hl
      subst h hl
      rfl
    | succ k =>
      simp only [List.getElem?_cons_succ] at h
      simp only [List.length_cons, Nat.add_right_cancel_iff] at hl
      rw [List.take_succ_cons, List.cons_append, ← ih k p h hl]

theorem pass_events_length (area : fins_area_tp) : ∀ (l : List Iteration),
    (l.flatMap (pass_events area)).length = 2 * l.length := by
  intro l
  induction l with
  | nil => rfl
  | cons x xs ih =>
    rw [List.flatMap_cons, List.length_append, ih, List.length_cons]
    simp only [pass_events, List.length_cons, List.length_nil]
    omega

theorem as_uint32_lt (v : Int) : as_uint32 v < 2 ^ 32 := by
  unfold as_uint32
  omega

theorem as_uint32_as_int32 (w : Nat) (h : w < 2 ^ 32) : as_uint32 (as_int32 w) = w := by
  unfold as_uint32 as_int32 UINT32_MOD
  split <;> omega

theorem as_int32_range (w : Nat) : -2 ^ 31 ≤ as_int32 w ∧ as_int32 w < 2 ^ 31 := by
  unfold as_int32 UINT32_MOD
  split <;> omega

/-- The destination of the unsigned routine holds 32-bit patterns after the call
if it did before. -/
theorem read_uint32_cells_lt (env : Env) (fuel : Nat) (sys : Option fins_sys_tp)
    (start : Option String) (d : Nat → Nat) (count : Nat) (m : Nat → Nat)
    (hd : ∀ i, d i < 2 ^ 32)
    (hm : (finslib_memory_area_read_uint32 env fuel sys start (some d) count).data = some m) :
    ∀ i, m i < 2 ^ 32 := by
  unfold finslib_memory_area_read_uint32 at hm
  split at hm
  · simp only [Option.some.injEq] at hm
    subst hm; exact hd
  · split at hm
    · simp only [Option.some.injEq] at hm
      subst hm; exact hd
    · split at hm
      · simp only [Option.some.injEq] at hm
        subst hm; exact hd
      · split at hm
        · simp only [Option.some.injEq] at hm
          subst hm; exact hd
        · rename_i d1 hd1
          have hd1' : d = d1 := by
            injection hd1
          subst hd1'
          split at hm
          · simp only [Option.some.injEq] at hm
            subst hm; exact hd
          · split at hm
            · simp only [Option.some.injEq] at hm
              subst hm; exact hd
            · split at hm
              · simp only [Option.some.injEq] at hm
                subst hm; exact hd
              · simp only [Option.some.injEq] at hm
                subst hm
                exact read_loop_cells_lt _ _ _ _ _ _ _ _ _ hd

theorem read_uint32_data_none (env : Env) (fuel : Nat) (sys : Option fins_sys_tp)
    (start : Option String) (count : Nat) :
    (finslib_memory_area_read_uint32 env fuel sys start none count).data = none := by
  unfold finslib_memory_area_read_uint32
  split
  · rfl
  · split
    · rfl
    · split
      · rfl
      · rfl

/-! ## The claims, continued -/

/-- C11: for a chunk whose transport call succeeds, the read ends at this chunk
with the body-too-short code exactly when the length of the reply differs
from `2 + 2 * units`, `units` being twice the number of values of the chunk;
so it does for a reply one byte short.  When the length matches, the values
of the chunk are decoded into the destination, and the loop goes on with the
next chunk if values remain, or returns success if none remain. -/
theorem read_uint32_body_length (env : Env) (fuel : Nat) (s : fins_sys_tp) (text : String)
    (d : Nat → Nat) (count : Nat) (address : fins_address_tp) (area : fins_area_tp)
    (hc : 0 < count) (hcs : count < SIZE_MOD) (hsock : s.sockfd ≠ env.INVALID_SOCKET)
    (haddr : env.XX_finslib_decode_address text = some address)
    (harea : env.XX_finslib_search_area s address 16 env.FI_RD false = some area) :
    ∀ (k : Nat) (p : Iteration),
      (finslib_memory_area_read_uint32 env fuel (some s) (some text) (some d)
        count).iterations[k]? = some p →
      p.retval = FINS_RETVAL_SUCCESS →
      (p.retval, p.reply) = env.XX_finslib_communicate s k
        (request_body area p.chunk_start p.chunk_length) 6 true ∧
      p.chunk_length = 2 * (p.chunk_length / 2) ∧
      (((finslib_memory_area_read_uint32 env fuel (some s) (some text) (some d)
            count).retval = some FINS_RETVAL_BODY_TOO_SHORT ∧
          (finslib_memory_area_read_uint32 env fuel (some s) (some text) (some d)
            count).iterations.length = k + 1) ↔
        p.reply.length ≠ 2 + 2 * (2 * (p.chunk_length / 2))) ∧
      (p.reply.length + 1 = 2 + 2 * (2 * (p.chunk_length / 2)) →
        (finslib_memory_area_read_uint32 env fuel (some s) (some text) (some d)
          count).retval = some FINS_RETVAL_BODY_TOO_SHORT ∧
        (finslib_memory_area_read_uint32 env fuel (some s) (some text) (some d)
          count).iterations.length = k + 1) ∧
      (p.reply.length = 2 + 2 * (2 * (p.chunk_length / 2)) →
        (∃ m, (finslib_memory_area_read_uint32 env fuel (some s) (some text) (some d)
            count).data = some m ∧
          ∀ i, p.offset ≤ i → i < p.offset + p.chunk_length / 2 →
            m i = decode_value p.reply (2 + 4 * (i - p.offset))) ∧
        (p.chunk_length / 2 < p.todo → k + 1 < fuel →
          k + 1 < (finslib_memory_area_read_uint32 env fuel (some s) (some text) (some d)
            count).iterations.length) ∧
        (p.todo = p.chunk_length / 2 →
          (finslib_memory_area_read_uint32 env fuel (some s) (some text) (some d)
            count).retval = some FINS_RETVAL_SUCCESS ∧
          (finslib_memory_area_read_uint32 env fuel (some s) (some text) (some d)
            count).iterations.length = k + 1)) := by
  rw [read_uint32_valid env fuel s text d count address area (by omega) hsock haddr harea]
  intro k p hk hok
  have hk' : (read_loop env s area fuel 0 (initial_chunk_start address area) 0 count
      d).iterations[k]? = some p := hk
  obtain ⟨_, _, _, g4, _⟩ := read_loop_log env s area fuel 0
    (initial_chunk_start address area) 0 count d hcs (by omega)
  obtain ⟨_, b2, b3⟩ := g4 p (List.getElem?_mem hk')
  have hev := next_chunk_length_even env p.todo
  rw [← b2] at hev
  have hunits : 2 * (p.chunk_length / 2) = p.chunk_length := by omega
  obtain ⟨a0, _, a2, a3, a4⟩ := read_loop_pass env s area fuel 0
    (initial_chunk_start address area) 0 count d hcs (by omega) k p hk'
  have ha := read_loop_answers env s area fuel 0 _ 0 count d k p hk'
  rw [Nat.zero_add] at ha
  rw [hunits]
  refine ⟨ha, rfl, ⟨fun h hlen => ?_, fun h => a2 hok h⟩, fun h => a2 hok (by omega),
    fun hlen => ⟨⟨_, rfl, ?_⟩, fun h1 h2 => ((a4 hok hlen h1).1 h2), fun h => a3 hok hlen h⟩⟩
  · obtain ⟨h1, h2⟩ := h
    have h1' : (read_loop env s area fuel 0 (initial_chunk_start address area) 0 count
        d).retval = some FINS_RETVAL_BODY_TOO_SHORT := h1
    have h2' : (read_loop env s area fuel 0 (initial_chunk_start address area) 0 count
        d).iterations.length = k + 1 := h2
    rcases Nat.lt_or_ge (p.chunk_length / 2) p.todo with hlt | hge
    · rcases Nat.lt_or_ge (k + 1) fuel with hf | hf
      · have := (a4 hok hlen hlt).1 hf
        omega
      · have := ((a4 hok hlen hlt).2 (by omega)).1
        rw [this] at h1'
        exact Option.noConfusion h1'
    · have := (a3 hok hlen (by omega)).1
      rw [this] at h1'
      exact Retval.noConfusion (Option.some.inj h1')
  · intro i hi1 hi2
    exact read_loop_decoded env s area fuel 0 _ 0 count d hcs (by omega) k p hk' hok hlen i
      hi1 hi2

set_option maxRecDepth 100000 in
theorem read_uint32_body_length_witness :
    (finslib_memory_area_read_uint32 (faulty_env 4 9 1 (Retval.other (-7))) 4 (some ⟨5⟩)
      (some "D100") (some (fun _ => 0)) 5).iterations[1]? =
      some ⟨104, 4, 2, 3, FINS_RETVAL_SUCCESS, [0, 0, 17, 18, 19, 20, 21, 22, 23]⟩ ∧
    ((finslib_memory_area_read_uint32 (faulty_env 4 9 1 (Retval.other (-7))) 4 (some ⟨5⟩)
        (some "D100") (some (fun _ => 0)) 5).retval = some FINS_RETVAL_BODY_TOO_SHORT ∧
      (finslib_memory_area_read_uint32 (faulty_env 4 9 1 (Retval.other (-7))) 4 (some ⟨5⟩)
        (some "D100") (some (fun _ => 0)) 5).iterations.length = 1 + 1) :=
  ⟨by decide,
    ((read_uint32_body_length (faulty_env 4 9 1 (Retval.other (-7))) 4 ⟨5⟩ "D100"
      (fun _ => 0) 5 ⟨0x82, 100⟩ ⟨0x82, 0, 0⟩ (by decide) (by decide) (by decide)
      (by decide) (by decide)) 1
      ⟨104, 4, 2, 3, FINS_RETVAL_SUCCESS, [0, 0, 17, 18, 19, 20, 21, 22, 23]⟩
      (by decide) (by decide)).2.2.2.1 (by decide)⟩

/-- C12: when the transport call of chunk `k` returns a code other than success,
the read returns exactly that code, the failing pass is the last one, and its
two collaborator calls are the last ones of the trace. -/
theorem read_uint32_transport_error (env : Env) (fuel : Nat) (s : fins_sys_tp)
    (text : String) (d : Nat → Nat) (count : Nat) (address : fins_address_tp)
    (area : fins_area_tp)
    (hc : 0 < count) (hcs : count < SIZE_MOD) (hsock : s.sockfd ≠ env.INVALID_SOCKET)
    (haddr : env.XX_finslib_decode_address text = some address)
    (harea : env.XX_finslib_search_area s address 16 env.FI_RD false = some area) :
    ∀ (k : Nat) (p : Iteration),
      (finslib_memory_area_read_uint32 env fuel (some s) (some text) (some d)
        count).iterations[k]? = some p →
      p.retval ≠ FINS_RETVAL_SUCCESS →
      (p.retval, p.reply) = env.XX_finslib_communicate s k
        (request_body area p.chunk_start p.chunk_length) 6 true ∧
      (finslib_memory_area_read_uint32 env fuel (some s) (some text) (some d)
        count).retval = some p.retval ∧
      (finslib_memory_area_read_uint32 env fuel (some s) (some text) (some d)
        count).iterations.length = k + 1 ∧
      ∃ earlier,
        (finslib_memory_area_read_uint32 env fuel (some s) (some text) (some d)
          count).trace =
          earlier ++ [Event.init_command 0x01 0x01,
            Event.communicate (request_body area p.chunk_start p.chunk_length) 6 true] ∧
        earlier.length = 2 + 2 * k := by
  rw [read_uint32_valid env fuel s text d count address area (by omega) hsock haddr harea]
  intro k p hk hne
  have hk' : (read_loop env s area fuel 0 (initial_chunk_start address area) 0 count
      d).iterations[k]? = some p := hk
  obtain ⟨_, a1, _, _, _⟩ := read_loop_pass env s area fuel 0
    (initial_chunk_start address area) 0 count d hcs (by omega) k p hk'
  obtain ⟨b1, b2⟩ := a1 hne
  have ha := read_loop_answers env s area fuel 0 _ 0 count d k p hk'
  rw [Nat.zero_add] at ha
  have hsplit := list_last_split _ k p hk' b2
  have htr := read_loop_trace env s area fuel 0 (initial_chunk_start address area) 0 count d
  refine ⟨ha, b1, b2, lookup_events env s text address ++
    ((read_loop env s area fuel 0 (initial_chunk_start address area) 0 count
      d).iterations.take k).flatMap (pass_events area), ?_, ?_⟩
  · show lookup_events env s text address ++ _ = _
    rw [htr]
    conv_lhs => rw [hsplit]
    simp [List.flatMap_append, pass_events, List.append_assoc]
  · rw [List.length_append, pass_events_length, List.length_take, b2]
    simp only [lookup_events, List.length_cons, List.length_nil]
    omega

set_option maxRecDepth 100000 in
theorem read_uint32_transport_error_witness :
    (finslib_memory_area_read_uint32 (faulty_env 4 1 9 (Retval.other (-7))) 4 (some ⟨5⟩)
      (some "D100") (some (fun _ => 0)) 5).iterations[1]? =
      some ⟨104, 4, 2, 3, Retval.other (-7), []⟩ ∧
    (finslib_memory_area_read_uint32 (faulty_env 4 1 9 (Retval.other (-7))) 4 (some ⟨5⟩)
      (some "D100") (some (fun _ => 0)) 5).retval = some (Retval.other (-7)) ∧
    (finslib_memory_area_read_uint32 (faulty_env 4 1 9 (Retval.other (-7))) 4 (some ⟨5⟩)
      (some "D100") (some (fun _ => 0)) 5).iterations.length = 1 + 1 :=
  ⟨by decide,
    ((read_uint32_transport_error (faulty_env 4 1 9 (Retval.other (-7))) 4 ⟨5⟩ "D100"
      (fun _ => 0) 5 ⟨0x82, 100⟩ ⟨0x82, 0, 0⟩ (by decide) (by decide) (by decide)
      (by decide) (by decide)) 1 ⟨104, 4, 2, 3, Retval.other (-7), []⟩
      (by decide) (by decide)).2.1,
    ((read_uint32_transport_error (faulty_env 4 1 9 (Retval.other (-7))) 4 ⟨5⟩ "D100"
      (fun _ => 0) 5 ⟨0x82, 100⟩ ⟨0x82, 0, 0⟩ (by decide) (by decide) (by decide)
      (by decide) (by decide)) 1 ⟨104, 4, 2, 3, Retval.other (-7), []⟩
      (by decide) (by decide)).2.2.1⟩

/-- C13: when a read ends with a code other than success, the run is a sequence of
completed chunks followed by the failing pass; the offset of the failing pass
is the total number of values of the completed chunks; every element below
that offset holds the value decoded from the reply of the chunk that covers
it, and every element from that offset on is as it was before the call. -/
theorem read_uint32_failure_frame (env : Env) (fuel : Nat) (s : fins_sys_tp)
    (text : String) (d : Nat → Nat) (count : Nat) (address : fins_address_tp)
    (area : fins_area_tp) (e : Retval)
    (hc : 0 < count) (hcs : count < SIZE_MOD) (hsock : s.sockfd ≠ env.INVALID_SOCKET)
    (haddr : env.XX_finslib_decode_address text = some address)
    (harea : env.XX_finslib_search_area s address 16 env.FI_RD false = some area)
    (hret : (finslib_memory_area_read_uint32 env fuel (some s) (some text) (some d)
      count).retval = some e)
    (hne : e ≠ FINS_RETVAL_SUCCESS) :
    ∃ pre q m,
      (finslib_memory_area_read_uint32 env fuel (some s) (some text) (some d)
        count).iterations = pre ++ [q] ∧
      (finslib_memory_area_read_uint32 env fuel (some s) (some text) (some d)
        count).data = some m ∧
      q.offset = (pre.map (fun p => p.chunk_length / 2)).sum ∧
      (q.retval ≠ FINS_RETVAL_SUCCESS ∨ q.reply.length ≠ 2 + 2 * q.chunk_length) ∧
      (∀ p ∈ pre, p.retval = FINS_RETVAL_SUCCESS ∧ p.reply.length = 2 + 2 * p.chunk_length) ∧
      (∀ i, q.offset ≤ i → m i = d i) ∧
      (∀ i, i < q.offset →
        ∃ (j : Nat) (p : Iteration), pre[j]? = some p ∧
          p.offset ≤ i ∧ i < p.offset + p.chunk_length / 2 ∧
          m i = decode_value p.reply (2 + 4 * (i - p.offset))) := by
  rw [read_uint32_valid env fuel s text d count address area (by omega) hsock haddr harea]
    at hret ⊢
  obtain ⟨pre, q, g1, g2, g3, g4, g5, g6⟩ := read_loop_failure env s area fuel 0
    (initial_chunk_start address area) 0 count d e hcs (by omega) hret hne
  rw [Nat.zero_add] at g2
  refine ⟨pre, q, _, g1, rfl, g2, g3, g4, fun i hi => g5 i (by omega),
    fun i hi => g6 i (by omega) hi⟩

set_option maxRecDepth 100000 in
theorem read_uint32_failure_frame_witness :
    (finslib_memory_area_read_uint32 (faulty_env 4 9 1 (Retval.other (-7))) 4 (some ⟨5⟩)
      (some "D100") (some (fun i => 1000 + i)) 5).retval = some FINS_RETVAL_BODY_TOO_SHORT ∧
    ((finslib_memory_area_read_uint32 (faulty_env 4 9 1 (Retval.other (-7))) 4 (some ⟨5⟩)
      (some "D100") (some (fun i => 1000 + i)) 5).data.map
        (fun m => [m 0, m 1, m 2, m 3, m 4, m 5])) =
      some [0x03040102, 0x07080506, 1002, 1003, 1004, 1005] ∧
    ∃ pre q m,
      (finslib_memory_area_read_uint32 (faulty_env 4 9 1 (Retval.other (-7))) 4 (some ⟨5⟩)
        (some "D100") (some (fun i => 1000 + i)) 5).iterations = pre ++ [q] ∧
      (finslib_memory_area_read_uint32 (faulty_env 4 9 1 (Retval.other (-7))) 4 (some ⟨5⟩)
        (some "D100") (some (fun i => 1000 + i)) 5).data = some m ∧
      q.offset = (pre.map (fun p => p.chunk_length / 2)).sum ∧
      (q.retval ≠ FINS_RETVAL_SUCCESS ∨ q.reply.length ≠ 2 + 2 * q.chunk_length) ∧
      (∀ p ∈ pre, p.retval = FINS_RETVAL_SUCCESS ∧ p.reply.length = 2 + 2 * p.chunk_length) ∧
      (∀ i, q.offset ≤ i → m i = (fun i => 1000 + i) i) ∧
      (∀ i, i < q.offset →
        ∃ (j : Nat) (p : Iteration), pre[j]? = some p ∧
          p.offset ≤ i ∧ i < p.offset + p.chunk_length / 2 ∧
          m i = decode_value p.reply (2 + 4 * (i - p.offset))) :=
  ⟨by decide, by decide,
    read_uint32_failure_frame (faulty_env 4 9 1 (Retval.other (-7))) 4 ⟨5⟩ "D100"
      (fun i => 1000 + i) 5 ⟨0x82, 100⟩ ⟨0x82, 0, 0⟩ FINS_RETVAL_BODY_TOO_SHORT
      (by decide) (by decide) (by decide) (by decide) (by decide) (by decide) (by decide)⟩

/-- C14 (as stated): with `todo = 2^63`, a `size_t` value, the product `todo*2`
wraps to 0 and the chunk length is 0 units, with the maximum 269.  (A maximum
of `2^32` would be cut to 0 by the mask `0xFFFFFFFE` as well.) -/
theorem next_chunk_length_zero_refuted :
    0 < 2 ^ 63 ∧ 2 ^ 63 < SIZE_MOD ∧ 2 ≤ (sample_env 269).FINS_MAX_READ_WORDS_SYSWAY ∧
    next_chunk_length (sample_env 269) (2 ^ 63) = 0 ∧
    next_chunk_length (sample_env 269) (2 ^ 63) / 2 = 0 ∧
    next_chunk_length (sample_env (2 ^ 32)) (2 ^ 31) = 0 := by
  refine ⟨?_, ?_, ?_, ?_, ?_, ?_⟩ <;> decide

/-- C14 (amended): for every `todo` and every maximum `M` the chunk length is
even and at most `M`, and it is 0 exactly when the low 32 bits of
`min M (todo*2)`, the product taken in `size_t`, are below 2.  For a maximum
`2 ≤ M < 2^32` and every `size_t` value `todo > 0` it is `min M (todo*2)` with
its lowest bit cleared; it is 0 for `todo = 2^63` and for no other `todo`, so
that for every other `todo` the chunk holds at least one value. -/
theorem next_chunk_length_bounds (env : Env) (todo : Nat) :
    next_chunk_length env todo % 2 = 0 ∧
    next_chunk_length env todo ≤ env.FINS_MAX_READ_WORDS_SYSWAY ∧
    (next_chunk_length env todo = 0 ↔
      min (env.FINS_MAX_READ_WORDS_SYSWAY % SIZE_MOD) ((todo * 2) % SIZE_MOD) % 2 ^ 32 < 2) ∧
    (2 ≤ env.FINS_MAX_READ_WORDS_SYSWAY → env.FINS_MAX_READ_WORDS_SYSWAY < 2 ^ 32 →
      0 < todo → todo < SIZE_MOD →
      next_chunk_length env todo
        = min env.FINS_MAX_READ_WORDS_SYSWAY ((todo * 2) % SIZE_MOD) / 2 * 2 ∧
      (next_chunk_length env todo = 0 ↔ todo = 2 ^ 63) ∧
      (todo ≠ 2 ^ 63 → next_chunk_length env todo ≠ 0 ∧
        1 ≤ next_chunk_length env todo / 2)) := by
  have heq := next_chunk_length_eq env todo
  refine ⟨next_chunk_length_even env todo, next_chunk_length_le_max env todo, by omega, ?_⟩
  intro hM2 hM h0 ht
  unfold SIZE_MOD at heq ht ⊢
  rw [Nat.mod_eq_of_lt (by omega : env.FINS_MAX_READ_WORDS_SYSWAY < 2 ^ 64)] at heq
  refine ⟨by omega, by omega, by omega⟩

theorem next_chunk_length_bounds_witness :
    next_chunk_length (sample_env 269) (2 ^ 64 - 1) % 2 = 0 ∧
    next_chunk_length (sample_env 269) (2 ^ 64 - 1) ≤ 269 ∧
    next_chunk_length (sample_env 269) (2 ^ 64 - 1) = 268 ∧
    next_chunk_length (sample_env 269) (2 ^ 64 - 1) ≠ 0 ∧
    1 ≤ next_chunk_length (sample_env 269) (2 ^ 64 - 1) / 2 :=
  ⟨(next_chunk_length_bounds (sample_env 269) (2 ^ 64 - 1)).1,
   (next_chunk_length_bounds (sample_env 269) (2 ^ 64 - 1)).2.1,
   ((next_chunk_length_bounds (sample_env 269) (2 ^ 64 - 1)).2.2.2 (by decide) (by decide)
      (by decide) (by decide)).1,
   ((next_chunk_length_bounds (sample_env 269) (2 ^ 64 - 1)).2.2.2 (by decide) (by decide)
      (by decide) (by decide)).2.2 (by decide)⟩

/-- C16: the signed routine returns the code of the unsigned routine run on the
32-bit patterns of the destination, with the same collaborator calls and the
same passes; each signed element left in the destination is the two's
complement value of the unsigned element at the same index and has the same
32-bit pattern. -/
theorem read_int32_refines (env : Env) (fuel : Nat) (sys : Option fins_sys_tp)
    (start : Option String) (data : Option (Nat → Int)) (count : Nat) :
    (finslib_memory_area_read_int32 env fuel sys start data count).retval =
      (finslib_memory_area_read_uint32 env fuel sys start
        (data.map (fun d i => as_uint32 (d i))) count).retval ∧
    (finslib_memory_area_read_int32 env fuel sys start data count).trace =
      (finslib_memory_area_read_uint32 env fuel sys start
        (data.map (fun d i => as_uint32 (d i))) count).trace ∧
    (finslib_memory_area_read_int32 env fuel sys start data count).iterations =
      (finslib_memory_area_read_uint32 env fuel sys start
        (data.map (fun d i => as_uint32 (d i))) count).iterations ∧
    ((finslib_memory_area_read_int32 env fuel sys start data count).data = none ↔
      (finslib_memory_area_read_uint32 env fuel sys start
        (data.map (fun d i => as_uint32 (d i))) count).data = none) ∧
    ∀ m, (finslib_memory_area_read_uint32 env fuel sys start
        (data.map (fun d i => as_uint32 (d i))) count).data = some m →
      ∃ ms, (finslib_memory_area_read_int32 env fuel sys start data count).data = some ms ∧
        ∀ i, ms i = as_int32 (m i) ∧ as_uint32 (ms i) = m i ∧
          -2 ^ 31 ≤ ms i ∧ ms i < 2 ^ 31 := by
  refine ⟨rfl, rfl, rfl, ?_, ?_⟩
  · simp only [finslib_memory_area_read_int32, Option.map_eq_none']
  · intro m hm
    refine ⟨fun i => as_int32 (m i), ?_, fun i => ⟨rfl, ?_, as_int32_range (m i)⟩⟩
    · simp only [finslib_memory_area_read_int32, hm, Option.map_some']
    · cases data with
      | none =>
        have := read_uint32_data_none env fuel sys start count
        simp only [Option.map_none'] at hm
        rw [this] at hm
        exact Option.noConfusion hm
      | some d0 =>
        simp only [Option.map_some'] at hm
        exact as_uint32_as_int32 (m i)
          (read_uint32_cells_lt env fuel sys start _ count m (fun j => as_uint32_lt (d0 j))
            hm i)

set_option maxRecDepth 100000 in
theorem read_int32_refines_witness :
    (finslib_memory_area_read_int32 (replay_env 269 [0xFFFFFFFE, 0x33441122]) 1 (some ⟨5⟩)
      (some "D100") (some (fun _ => -1)) 2).retval =
      (finslib_memory_area_read_uint32 (replay_env 269 [0xFFFFFFFE, 0x33441122]) 1 (some ⟨5⟩)
        (some "D100") (Option.map (fun d i => as_uint32 (d i)) (some (fun _ => -1)))
        2).retval ∧
    (finslib_memory_area_read_int32 (replay_env 269 [0xFFFFFFFE, 0x33441122]) 1 (some ⟨5⟩)
      (some "D100") (some (fun _ => -1)) 2).data.map (fun ms => [ms 0, ms 1, ms 2])
      = some [-2, 0x33441122, -1] ∧
    (finslib_memory_area_read_uint32 (replay_env 269 [0xFFFFFFFE, 0x33441122]) 1 (some ⟨5⟩)
      (some "D100") (some (fun _ => 0xFFFFFFFF)) 2).data.map (fun m => [m 0, m 1, m 2])
      = some [0xFFFFFFFE, 0x33441122, 0xFFFFFFFF] :=
  ⟨(read_int32_refines (replay_env 269 [0xFFFFFFFE, 0x33441122]) 1 (some ⟨5⟩)
      (some "D100") (some (fun _ => -1)) 2).1,
    by decide, by decide⟩

/-- C17: for a list of `N` 32-bit values with `1 ≤ N ≤ M / 2`, the synthetic reply
of two status bytes and the four bytes of each value has `2 + 4 * N` bytes;
a read of `N` values asks for `2 * N` units in one chunk, and when the
transport answers with the synthetic reply, the length check passes, the
read returns success after this one pass, and the destination holds exactly
the `N` values in order, every other element being unchanged. -/
theorem synthetic_reply_round_trip (env : Env) (fuel : Nat) (s : fins_sys_tp)
    (text : String) (d : Nat → Nat) (address : fins_address_tp) (area : fins_area_tp)
    (values : List Nat) (status0 status1 : Nat)
    (hM : env.FINS_MAX_READ_WORDS_SYSWAY < 2 ^ 32)
    (hN1 : 1 ≤ values.length) (hN : values.length ≤ env.FINS_MAX_READ_WORDS_SYSWAY / 2)
    (hv : ∀ v ∈ values, v < 2 ^ 32) (hs0 : status0 < 256) (hs1 : status1 < 256)
    (hf : 0 < fuel) (hsock : s.sockfd ≠ env.INVALID_SOCKET)
    (haddr : env.XX_finslib_decode_address text = some address)
    (harea : env.XX_finslib_search_area s address 16 env.FI_RD false = some area)
    (hreply : env.XX_finslib_communicate s 0
        (request_body area (initial_chunk_start address area) (2 * values.length)) 6 true
      = (FINS_RETVAL_SUCCESS, synthetic_reply status0 status1 values)) :
    (synthetic_reply status0 status1 values).length = 2 + 4 * values.length ∧
    next_chunk_length env values.length = 2 * values.length ∧
    (synthetic_reply status0 status1 values).length
      = (2 + 2 * next_chunk_length env values.length) % SIZE_MOD ∧
    (finslib_memory_area_read_uint32 env fuel (some s) (some text) (some d)
      values.length).retval = some FINS_RETVAL_SUCCESS ∧
    (finslib_memory_area_read_uint32 env fuel (some s) (some text) (some d)
      values.length).iterations.map (fun p => (p.chunk_length, p.reply))
      = [(2 * values.length, synthetic_reply status0 status1 values)] ∧
    ∃ m, (finslib_memory_area_read_uint32 env fuel (some s) (some text) (some d)
        values.length).data = some m ∧
      (∀ i, i < values.length → m i = values.getD i 0) ∧
      (∀ i, values.length ≤ i → m i = d i) := by
  have hS : SIZE_MOD = 2 ^ 64 := rfl
  have hlenr : (synthetic_reply status0 status1 values).length = 2 + 4 * values.length := by
    simp only [synthetic_reply, List.length_cons, reply_words_length]
    omega
  have hhalf := next_chunk_length_half env values.length hM (by omega)
  have hev := next_chunk_length_even env values.length
  have hcl : next_chunk_length env values.length = 2 * values.length := by omega
  have hmod : (2 + 2 * next_chunk_length env values.length) % SIZE_MOD
      = 2 + 2 * next_chunk_length env values.length := Nat.mod_eq_of_lt (by omega)
  refine ⟨hlenr, hcl, by rw [hmod, hcl, hlenr]; omega, ?_⟩
  rw [read_uint32_valid env fuel s text d values.length address area (by omega) hsock haddr
    harea]
  obtain ⟨f, rfl⟩ : ∃ f, fuel = f + 1 := ⟨fuel - 1, by omega⟩
  have e : (pass_record env s area 0 (initial_chunk_start address area) 0
      values.length).chunk_length = next_chunk_length env values.length := rfl
  have hrec : pass_record env s area 0 (initial_chunk_start address area) 0 values.length
      = ⟨initial_chunk_start address area, 2 * values.length, 0, values.length,
          FINS_RETVAL_SUCCESS, synthetic_reply status0 status1 values⟩ := by
    unfold pass_record
    rw [hcl, hreply]
  have hstep := todo_step env values.length (by omega)
  rcases read_loop_cases env s area f 0 (initial_chunk_start address area) 0 values.length d
    with ⟨h1, _⟩ | ⟨_, h2, _⟩ | ⟨_, _, _, hr⟩ | ⟨_, _, h3, _⟩
  · rw [hrec] at h1
    exact absurd rfl h1
  · rw [e, hmod, hcl, hrec] at h2
    exfalso
    apply h2
    show (synthetic_reply status0 status1 values).length = _
    rw [hlenr]
    omega
  · rw [hr, hrec]
    refine ⟨rfl, rfl, _, rfl, fun i hi => ?_, fun i hi => ?_⟩
    · show decode_loop _ 0 (2 * values.length / 2) 0 2 d i = _
      rw [decode_loop_spec _ _ _ _ _ _ (by omega) (by omega), if_pos (by omega)]
      have hidx : 2 + 4 * (i - (0 + 0)) = 2 + 4 * i := by omega
      rw [hidx]
      exact decode_synthetic values status0 status1 hs0 hs1 hv (by omega) i hi
    · show decode_loop _ 0 (2 * values.length / 2) 0 2 d i = _
      rw [decode_loop_spec _ _ _ _ _ _ (by omega) (by omega), if_neg (by omega)]
  · rw [e, hstep] at h3
    omega

set_option maxRecDepth 100000 in
theorem synthetic_reply_round_trip_witness :
    (finslib_memory_area_read_uint32 (replay_env 269 [0x33441122, 0xDEADBEEF]) 1 (some ⟨5⟩)
      (some "D100") (some (fun i => 1000 + i)) [0x33441122, 0xDEADBEEF].length).retval
      = some FINS_RETVAL_SUCCESS ∧
    synthetic_reply 0 0 [0x33441122, 0xDEADBEEF]
      = [0, 0, 0x11, 0x22, 0x33, 0x44, 0xBE, 0xEF, 0xDE, 0xAD] ∧
    ∃ m, (finslib_memory_area_read_uint32 (replay_env 269 [0x33441122, 0xDEADBEEF]) 1
        (some ⟨5⟩) (some "D100") (some (fun i => 1000 + i))
        [0x33441122, 0xDEADBEEF].length).data = some m ∧
      (∀ i, i < [0x33441122, 0xDEADBEEF].length →
        m i = [0x33441122, 0xDEADBEEF].getD i 0) ∧
      (∀ i, [0x33441122, 0xDEADBEEF].length ≤ i → m i = (fun i => 1000 + i) i) :=
  ⟨(synthetic_reply_round_trip (replay_env 269 [0x33441122, 0xDEADBEEF]) 1 ⟨5⟩ "D100"
      (fun i => 1000 + i) ⟨0x82, 100⟩ ⟨0x82, 0, 0⟩ [0x33441122, 0xDEADBEEF] 0 0
      (by decide) (by decide) (by decide) (by decide) (by decide) (by decide) (by decide)
      (by decide) (by decide) (by decide) rfl).2.2.2.1,
    by decide,
    (synthetic_reply_round_trip (replay_env 269 [0x33441122, 0xDEADBEEF]) 1 ⟨5⟩ "D100"
      (fun i => 1000 + i) ⟨0x82, 100⟩ ⟨0x82, 0, 0⟩ [0x33441122, 0xDEADBEEF] 0 0
      (by decide) (by decide) (by decide) (by decide) (by decide) (by decide) (by decide)
      (by decide) (by decide) (by decide) rfl).2.2.2.2.2⟩

/-- C19: in a read of `count > 0` values that passes the checks, every pass whose
reply passed the length check decodes within bounds: each destination index
`offset + a` is below `count`, each reply index `bodylen + 0 .. bodylen + 3`
is below the verified length `2 + 2 * chunk_length`, so that the decode loop
with explicit bounds makes no access outside; and no element from index
`count` on is changed by the read. -/
theorem read_uint32_in_bounds (env : Env) (fuel : Nat) (s : fins_sys_tp)
    (text : String) (d : Nat → Nat) (count : Nat) (address : fins_address_tp)
    (area : fins_area_tp)
    (hc : 0 < count) (hcs : count < SIZE_MOD) (hsock : s.sockfd ≠ env.INVALID_SOCKET)
    (haddr : env.XX_finslib_decode_address text = some address)
    (harea : env.XX_finslib_search_area s address 16 env.FI_RD false = some area) :
    (∀ p ∈ (finslib_memory_area_read_uint32 env fuel (some s) (some text) (some d)
        count).iterations,
      p.retval = FINS_RETVAL_SUCCESS → p.reply.length = 2 + 2 * p.chunk_length →
      (∀ a, a < p.chunk_length / 2 →
        (p.offset + a) % SIZE_MOD < count ∧
        ∀ j, j < 4 → (2 + 4 * a + j) % SIZE_MOD < 2 + 2 * p.chunk_length) ∧
      ∀ m, decode_loop_checked count p.reply p.offset (p.chunk_length / 2) 0 2 m =
        some (decode_loop p.reply p.offset (p.chunk_length / 2) 0 2 m)) ∧
    ∃ m, (finslib_memory_area_read_uint32 env fuel (some s) (some text) (some d)
        count).data = some m ∧
      ∀ i, count ≤ i → m i = d i := by
  rw [read_uint32_valid env fuel s text d count address area (by omega) hsock haddr harea]
  have hS : SIZE_MOD = 2 ^ 64 := rfl
  obtain ⟨_, _, _, g4, _⟩ := read_loop_log env s area fuel 0
    (initial_chunk_start address area) 0 count d hcs (by omega)
  refine ⟨fun p hp hok hlen => ?_, _, rfl, fun i hi => ?_⟩
  · obtain ⟨b1, b2, b3⟩ := g4 p hp
    have hlt := next_chunk_length_lt env p.todo
    rw [← b2] at hlt
    have hev := next_chunk_length_even env p.todo
    rw [← b2] at hev
    refine ⟨fun a ha => ⟨?_, fun j hj => ?_⟩, fun m => ?_⟩
    · rw [Nat.mod_eq_of_lt (by omega)]
      omega
    · rw [Nat.mod_eq_of_lt (by omega)]
      omega
    · exact decode_loop_checked_eq count p.reply p.offset (by omega) (by omega) _ 0 2 m
        (by omega) (by omega)
  · exact read_loop_outside env s area fuel 0 _ 0 count d hcs (by omega) i (by omega)

set_option maxRecDepth 100000 in
theorem read_uint32_in_bounds_witness :
    (finslib_memory_area_read_uint32 (sample_env 4) 3 (some ⟨5⟩) (some "D100")
      (some (fun i => 1000 + i)) 3).iterations.map
        (fun p => (p.offset, p.chunk_length, p.reply.length)) = [(0, 4, 10), (2, 2, 6)] ∧
    ∃ m, (finslib_memory_area_read_uint32 (sample_env 4) 3 (some ⟨5⟩) (some "D100")
        (some (fun i => 1000 + i)) 3).data = some m ∧
      ∀ i, 3 ≤ i → m i = (fun i => 1000 + i) i :=
  ⟨by decide,
    (read_uint32_in_bounds (sample_env 4) 3 ⟨5⟩ "D100" (fun i => 1000 + i) 3 ⟨0x82, 100⟩
      ⟨0x82, 0, 0⟩ (by decide) (by decide) (by decide) (by decide) (by decide)).2⟩

/-- C20: the request carries the wire address modulo 65536: two addresses that
agree modulo 65536 give the same six bytes, the two address bytes read back
as the address modulo 65536, and so does every request of a read, whatever
the value of `chunk_start`; a read whose transport answers every request
with success and a reply of the expected length returns success all the
same.  The two unit bytes read back as the chunk length if that is at most
65535. -/
theorem request_address_low16 (env : Env) (fuel : Nat) (s : fins_sys_tp)
    (text : String) (d : Nat → Nat) (count : Nat) (address : fins_address_tp)
    (area : fins_area_tp)
    (hc : 0 < count) (hsock : s.sockfd ≠ env.INVALID_SOCKET)
    (haddr : env.XX_finslib_decode_address text = some address)
    (harea : env.XX_finslib_search_area s address 16 env.FI_RD false = some area) :
    (∀ (a : fins_area_tp) (start1 start2 len : Nat), start1 % 65536 = start2 % 65536 →
      request_body a start1 len = request_body a start2 len) ∧
    (∀ (a : fins_area_tp) (start len : Nat),
      (request_body a start len).length = 6 ∧
      (request_body a start len).getD 1 0 * 256 + (request_body a start len).getD 2 0
        = start % 65536) ∧
    (∀ (a : fins_area_tp) (start len : Nat), len ≤ 65535 →
      (request_body a start len).getD 4 0 * 256 + (request_body a start len).getD 5 0
        = len) ∧
    (finslib_memory_area_read_uint32 env fuel (some s) (some text) (some d) count).trace =
      [Event.decode_address text, Event.search_area s address 16 env.FI_RD false] ++
        (finslib_memory_area_read_uint32 env fuel (some s) (some text) (some d)
          count).iterations.flatMap (fun p =>
            [Event.init_command 0x01 0x01,
              Event.communicate (request_body area (p.chunk_start % 65536) p.chunk_length)
                6 true]) ∧
    (2 ≤ env.FINS_MAX_READ_WORDS_SYSWAY → env.FINS_MAX_READ_WORDS_SYSWAY < 2 ^ 32 →
      (∀ k chunk_start chunk_length, chunk_length ≤ env.FINS_MAX_READ_WORDS_SYSWAY →
        (env.XX_finslib_communicate s k (request_body area chunk_start chunk_length) 6
          true).1 = FINS_RETVAL_SUCCESS ∧
        (env.XX_finslib_communicate s k (request_body area chunk_start chunk_length) 6
          true).2.length = 2 + 2 * chunk_length) →
      count * 2 < SIZE_MOD → count ≤ fuel →
      (finslib_memory_area_read_uint32 env fuel (some s) (some text) (some d) count).retval
        = some FINS_RETVAL_SUCCESS) := by
  have hcong : ∀ (a : fins_area_tp) (start1 start2 len : Nat),
      start1 % 65536 = start2 % 65536 →
      request_body a start1 len = request_body a start2 len := by
    intro a start1 start2 len h
    simp only [request_body, land_ff_eq, shiftRight_eight]
    have h1 : start1 / 256 % 256 = start2 / 256 % 256 := by omega
    have h2 : start1 % 256 = start2 % 256 := by omega
    rw [h1, h2]
  refine ⟨hcong, ?_, ?_, ?_, ?_⟩
  · intro a start len
    refine ⟨rfl, ?_⟩
    simp only [request_body, List.getD_cons_succ, List.getD_cons_zero, land_ff_eq,
      shiftRight_eight]
    omega
  · intro a start len hl
    simp only [request_body, List.getD_cons_succ, List.getD_cons_zero, land_ff_eq,
      shiftRight_eight]
    omega
  · rw [read_uint32_valid env fuel s text d count address area (by omega) hsock haddr harea]
    show lookup_events env s text address ++ _ = _
    rw [read_loop_trace]
    show _ ++ _ = _ ++ _
    congr 1
    apply flatMap_congr_mem
    intro p _
    simp only [pass_events]
    rw [hcong area p.chunk_start (p.chunk_start % 65536) p.chunk_length (by omega)]
  · intro hM2 hM hgood hsmall hf
    exact read_uint32_total env fuel s text d count address area hM2 hM hc hsmall hf hsock
      haddr harea hgood

set_option maxRecDepth 100000 in
theorem request_address_low16_witness :
    (finslib_memory_area_read_uint32 (high_address_env 4) 3 (some ⟨5⟩) (some "D100")
      (some (fun _ => 0)) 3).iterations.map (fun p => p.chunk_start) = [65534, 65538] ∧
    (finslib_memory_area_read_uint32 (high_address_env 4) 3 (some ⟨5⟩) (some "D100")
      (some (fun _ => 0)) 3).trace =
      [Event.decode_address "D100", Event.search_area ⟨5⟩ ⟨0x82, 65534⟩ 16 1 false,
        Event.init_command 1 1, Event.communicate [0x82, 255, 254, 0, 0, 4] 6 true,
        Event.init_command 1 1, Event.communicate [0x82, 0, 2, 0, 0, 2] 6 true] ∧
    (finslib_memory_area_read_uint32 (high_address_env 4) 3 (some ⟨5⟩) (some "D100")
      (some (fun _ => 0)) 3).retval = some FINS_RETVAL_SUCCESS ∧
    request_body ⟨0x82, 0, 0⟩ 65538 2 = request_body ⟨0x82, 0, 0⟩ 2 2 :=
  ⟨by decide, by decide,
    (request_address_low16 (high_address_env 4) 3 ⟨5⟩ "D100" (fun _ => 0) 3 ⟨0x82, 65534⟩
      ⟨0x82, 0, 0⟩ (by decide) (by decide) (by decide) (by decide)).2.2.2.2
        (by decide) (by decide)
        (fun k cs cl h => sample_env_good 4 ⟨5⟩ ⟨0x82, 0, 0⟩ k cs cl
          (Nat.lt_of_le_of_lt h (by decide)))
        (by decide) (by decide),
    (request_address_low16 (high_address_env 4) 3 ⟨5⟩ "D100" (fun _ => 0) 3 ⟨0x82, 65534⟩
      ⟨0x82, 0, 0⟩ (by decide) (by decide) (by decide) (by decide)).1 ⟨0x82, 0, 0⟩ 65538 2 2
      (by decide)⟩

end Fins
